import Mathlib

/-!
Verification of the X1 kernel core (scheduler, mutex, condition variable,
software timer, heap allocator) against its natural-language specification.

The C sources are shallowly embedded: machine integers (`unsigned long`,
`size_t`, both 32 bits wide on the i386 target) become `Nat` with explicit
`% 2 ^ 32` wherever overflow can occur, intrusive doubly-linked lists become
`List`s, pointers to thread structures become `Nat` identifiers resolved
through an explicit store, and assertion failures / undefined behaviour
become `Option.none`.
-/

namespace X1

/-! ## Timer tick arithmetic (src/src/timer.c) -/

/-- Modulus of the 32-bit `unsigned long` type used for tick counts. -/
def U32 : Nat := 2 ^ 32

/-- `TIMER_THRESHOLD` from src/src/timer.c line 55: `((unsigned long)-1) / 2`,
half of the maximum unsigned value. -/
def TIMER_THRESHOLD : Nat := (U32 - 1) / 2

/-- Unsigned 32-bit subtraction `a - b` as computed in C (wraps modulo 2^32). -/
def usub32 (a b : Nat) : Nat := (a + (U32 - b % U32)) % U32

/-- `timer_ticks_expired` from src/src/timer.c lines 94-98:
`(ticks - ref) > TIMER_THRESHOLD` on `unsigned long` operands. -/
def timer_ticks_expired (ticks ref : Nat) : Bool :=
  usub32 ticks ref > TIMER_THRESHOLD

/-- `timer_ticks_occurred` from src/src/timer.c lines 100-104:
`(ticks == ref) || timer_ticks_expired(ticks, ref)`. -/
def timer_ticks_occurred (ticks ref : Nat) : Bool :=
  (ticks == ref) || timer_ticks_expired ticks ref

/-! ## Theorems for claim C1 -/

/-- C1: for 32-bit tick values, `timer_ticks_expired t ref` holds exactly when
`(t - ref) mod 2^32` strictly exceeds `THRESHOLD = (2^32 - 1) / 2`;
`timer_ticks_occurred t ref` holds exactly when `t = ref` or the former holds;
and for every offset `k < 2^32`, `expired (t + k) t` is false for
`k ≤ THRESHOLD` and true for `THRESHOLD < k`. -/
theorem timer_ticks_expired_occurred_spec (t ref k : Nat)
    (ht : t < U32) (href : ref < U32) (hk : k < U32) :
    (timer_ticks_expired t ref = true ↔ (t + U32 - ref) % U32 > (2 ^ 32 - 1) / 2)
    ∧ (timer_ticks_occurred t ref = true ↔
        t = ref ∨ timer_ticks_expired t ref = true)
    ∧ (k ≤ TIMER_THRESHOLD → timer_ticks_expired ((t + k) % U32) t = false)
    ∧ (TIMER_THRESHOLD < k → timer_ticks_expired ((t + k) % U32) t = true) := by
  simp only [U32] at ht href hk
  refine ⟨?_, ?_, ?_, ?_⟩
  · simp only [timer_ticks_expired, usub32, TIMER_THRESHOLD, U32,
      decide_eq_true_eq]
    omega
  · simp only [timer_ticks_occurred, Bool.or_eq_true, beq_iff_eq]
  · intro hkle
    simp only [TIMER_THRESHOLD, U32] at hkle
    simp only [timer_ticks_expired, usub32, TIMER_THRESHOLD, U32,
      decide_eq_false_iff_not, not_lt]
    omega
  · intro hklt
    simp only [TIMER_THRESHOLD, U32] at hklt
    simp only [timer_ticks_expired, usub32, TIMER_THRESHOLD, U32,
      decide_eq_true_eq]
    omega

/-- Witness for C1: the wrap-safe comparison evaluated at concrete ticks:
`t = 4294967290`, `ref = 4294967290`, offset `k = 2^31` (just past the
threshold). -/
theorem timer_ticks_expired_occurred_spec_witness :
    timer_ticks_expired ((4294967290 + 2 ^ 31) % U32) 4294967290 = true :=
  (timer_ticks_expired_occurred_spec 4294967290 4294967290 (2 ^ 31)
    (by decide) (by decide) (by decide)).2.2.2 (by decide)

/-! ## Scheduler run queue (src/src/thread.c, i386 variant)

Threads are identified by `Nat` ids; the run queue carries a store
`threads : Nat → Thread` resolving ids to thread structures, mirroring the
C pointers. The i386 `struct thread` keeps the yield flag per thread. -/

/-- `THREAD_NR_PRIORITIES` (thread.h): number of priority levels. -/
def THREAD_NR_PRIORITIES : Nat := 20

/-- `THREAD_IDLE_PRIORITY` (thread.h): priority of the idle thread. -/
def THREAD_IDLE_PRIORITY : Nat := 0

/-- `enum thread_state` from src/src/thread.c lines 85-89. -/
inductive ThreadState where
  | running
  | sleeping
  | dead
deriving DecidableEq

/-- The fields of `struct thread` (src/src/thread.c lines 122-132) that the
scheduler logic reads and writes: state, yield flag and fixed priority.
The saved stack pointer, stack region, name and joiner are not needed by
the claims. -/
structure Thread where
  state : ThreadState
  yield : Bool
  priority : Nat
deriving DecidableEq

/-- `struct thread_runq` from src/src/thread.c lines 78-83: current thread,
count of enqueued runnable threads, one FIFO list per priority, idle thread.
`threads` is the store resolving ids, standing in for the C pointers. -/
structure ThreadRunq where
  current : Nat
  nr_threads : Nat
  lists : List (List Nat)
  idle : Nat
  threads : Nat → Thread

/-- The downward loop of `thread_runq_get_next` (src/src/thread.c lines
385-391): scan `lists` from index `n` down to 0 and return the first index
holding a non-empty list. Returns `none` when all scanned lists are empty
(in C the loop counter then wraps around and the subsequent dequeue is
undefined behaviour). -/
def thread_runq_scan (lists : List (List Nat)) : Nat → Option Nat
  | 0 => if lists.getD 0 [] = [] then none else some 0
  | n + 1 =>
    if lists.getD (n + 1) [] = [] then thread_runq_scan lists n else some (n + 1)

/-- `thread_runq_get_next` from src/src/thread.c lines 362-398: when
`nr_threads` is zero pick the idle thread, otherwise dequeue the front of the
highest-priority non-empty list (`thread_list_dequeue` takes
`list_first_entry` and unlinks it); the chosen thread becomes `current`.
`none` models the undefined dequeue from an empty list when `nr_threads` is
nonzero but all lists are empty. -/
def thread_runq_get_next (runq : ThreadRunq) : Option (ThreadRunq × Nat) :=
  if runq.nr_threads = 0 then
    some ({ runq with current := runq.idle }, runq.idle)
  else
    match thread_runq_scan runq.lists (runq.lists.length - 1) with
    | none => none
    | some i =>
      match runq.lists.getD i [] with
      | [] => none
      | t :: rest =>
        some ({ runq with current := t, lists := runq.lists.set i rest }, t)

/-- `thread_runq_put_prev` from src/src/thread.c lines 349-360: re-enqueue the
previously running thread at the tail of its priority list, unless it is the
idle thread. `none` models the failed bounds assertion in
`thread_runq_get_list` for an out-of-range priority. -/
def thread_runq_put_prev (runq : ThreadRunq) (tid : Nat) : Option ThreadRunq :=
  if tid = runq.idle then some runq
  else
    let prio := (runq.threads tid).priority
    if prio < runq.lists.length then
      some { runq with
               lists := runq.lists.set prio (runq.lists.getD prio [] ++ [tid]) }
    else none

/-- `thread_runq_add` from src/src/thread.c lines 400-417: assert the thread
is in the running state, enqueue it at the tail of its priority list
(`thread_list_enqueue` is `list_insert_tail`), increment `nr_threads`, and
mark the current thread for yielding when the new thread's priority strictly
exceeds the current thread's priority. `none` models a failed assertion. -/
def thread_runq_add (runq : ThreadRunq) (tid : Nat) : Option ThreadRunq :=
  if (runq.threads tid).state ≠ ThreadState.running then none
  else
    let prio := (runq.threads tid).priority
    if prio < runq.lists.length then
      let runq' : ThreadRunq :=
        { runq with
            lists := runq.lists.set prio (runq.lists.getD prio [] ++ [tid]),
            nr_threads := runq.nr_threads + 1 }
      if prio > (runq'.threads runq'.current).priority then
        some { runq' with
                 threads := fun j =>
                   if j = runq'.current then
                     { runq'.threads j with yield := true }
                   else runq'.threads j }
      else some runq'
    else none

/-- `thread_wakeup` from src/src/thread.c lines 796-814: a no-op when the
argument is null, the calling (current) thread, or a thread already in the
running state; otherwise assert the thread is not dead (`none` on failure),
set it running and add it to the run queue. -/
def thread_wakeup (runq : ThreadRunq) (t : Option Nat) : Option ThreadRunq :=
  match t with
  | none => some runq
  | some tid =>
    if tid = runq.current then some runq
    else if (runq.threads tid).state = ThreadState.running then some runq
    else if (runq.threads tid).state = ThreadState.dead then none
    else
      let runq' : ThreadRunq :=
        { runq with
            threads := fun j =>
              if j = tid then
                { runq.threads j with state := ThreadState.running }
              else runq.threads j }
      thread_runq_add runq' tid

/-! ## Theorems for claim C2 -/

/-- The run-queue counting invariant assumed by claim C2: `nr_threads` equals
the total number of thread ids stored across the priority lists. -/
def runqCountInv (runq : ThreadRunq) : Prop :=
  runq.nr_threads = (runq.lists.map List.length).sum

lemma thread_runq_scan_eq_some (lists : List (List Nat)) (i : Nat) :
    ∀ n, i ≤ n → lists.getD i [] ≠ [] →
      (∀ j, i < j → j ≤ n → lists.getD j [] = []) →
      thread_runq_scan lists n = some i := by
  intro n
  induction n with
  | zero =>
    intro hle hne _
    interval_cases i
    rw [thread_runq_scan, if_neg hne]
  | succ n ih =>
    intro hle hne hempty
    by_cases hi : i = n + 1
    · subst hi
      rw [thread_runq_scan, if_neg hne]
    · have hlt : i ≤ n := by omega
      have htop : lists.getD (n + 1) [] = [] := hempty (n + 1) (by omega) le_rfl
      rw [thread_runq_scan, if_pos htop]
      exact ih hlt hne fun j hj hj' => hempty j hj (by omega)

lemma set_getD_self (lists : List (List Nat)) (i : Nat)
    (hi : i < lists.length) : lists.set i (lists.getD i []) = lists := by
  apply List.ext_getElem?
  intro j
  by_cases hij : i = j
  · subst hij
    rw [List.getElem?_set_self hi, List.getD_eq_getElem?_getD,
      List.getElem?_eq_getElem hi]
    rfl
  · exact List.getElem?_set_ne hij

lemma sum_map_length_set (lists : List (List Nat)) (i : Nat) (l : List Nat)
    (hi : i < lists.length) :
    ((lists.set i l).map List.length).sum + (lists.getD i []).length
      = (lists.map List.length).sum + l.length := by
  conv_rhs => rw [← set_getD_self lists i hi]
  rw [List.map_set, List.sum_set, List.map_set, List.sum_set]
  simp only [List.length_map, hi, if_pos]
  omega

lemma sum_map_length_pos {lists : List (List Nat)} {i : Nat}
    (hi : i < lists.length) (hne : lists.getD i [] ≠ []) :
    0 < (lists.map List.length).sum := by
  have hmem : (lists.getD i []).length ∈ lists.map List.length := by
    rw [List.getD_eq_getElem?_getD, List.getElem?_eq_getElem hi, Option.getD_some]
    exact List.mem_map_of_mem List.length (lists.getElem_mem hi)
  have hpos : 0 < (lists.getD i []).length := List.length_pos.mpr hne
  have := List.single_le_sum (l := lists.map List.length)
    (fun x _ => Nat.zero_le x) _ hmem
  omega

lemma thread_runq_get_next_dequeue (runq : ThreadRunq)
    (hinv : runqCountInv runq) (i : Nat) (t : Nat) (rest : List Nat)
    (hi : i < runq.lists.length) (hfront : runq.lists.getD i [] = t :: rest)
    (hempty : ∀ j, i < j → j < runq.lists.length → runq.lists.getD j [] = []) :
    thread_runq_get_next runq =
      some ({ runq with current := t, lists := runq.lists.set i rest }, t) := by
  have hne : runq.lists.getD i [] ≠ [] := by
    rw [hfront]
    exact List.cons_ne_nil t rest
  have hnr : runq.nr_threads ≠ 0 := by
    have := sum_map_length_pos hi hne
    simp only [runqCountInv] at hinv
    omega
  have hscan : thread_runq_scan runq.lists (runq.lists.length - 1) = some i :=
    thread_runq_scan_eq_some runq.lists i _ (by omega) hne
      (fun j hj hj' => hempty j hj (by omega))
  simp only [thread_runq_get_next, if_neg hnr, hscan]
  rw [hfront]

/-- C2: under the counting invariant, `thread_runq_get_next` dequeues the
front thread of the highest-priority non-empty list and makes it current;
when every priority list is empty it selects the idle thread; and, combined
with the tail re-enqueue of `thread_runq_put_prev`, threads of equal priority
are dispatched in FIFO order: with `a` in front of `b` on the highest
non-empty list, `a` is selected first, and after `a` is put back `b` is
selected next. -/
theorem thread_runq_get_next_spec (runq : ThreadRunq)
    (hinv : runqCountInv runq) :
    ((∀ l ∈ runq.lists, l = []) →
      thread_runq_get_next runq =
        some ({ runq with current := runq.idle }, runq.idle))
    ∧ (∀ i t rest, i < runq.lists.length →
        runq.lists.getD i [] = t :: rest →
        (∀ j, i < j → j < runq.lists.length → runq.lists.getD j [] = []) →
        thread_runq_get_next runq =
          some ({ runq with current := t, lists := runq.lists.set i rest }, t))
    ∧ (∀ i a b rest, i < runq.lists.length →
        runq.lists.getD i [] = a :: b :: rest →
        (∀ j, i < j → j < runq.lists.length → runq.lists.getD j [] = []) →
        (runq.threads a).priority = i → a ≠ runq.idle →
        ∃ runq₁ runq₂,
          thread_runq_get_next runq = some (runq₁, a)
          ∧ thread_runq_put_prev runq₁ a = some runq₂
          ∧ ∃ runq₃, thread_runq_get_next runq₂ = some (runq₃, b)
              ∧ runq₃.current = b) := by
  refine ⟨?_, fun i t rest hi hfront hempty =>
      thread_runq_get_next_dequeue runq hinv i t rest hi hfront hempty, ?_⟩
  · intro hall
    have hzero : (runq.lists.map List.length).sum = 0 := by
      rw [List.sum_eq_zero]
      intro x hx
      obtain ⟨l, hl, rfl⟩ := List.mem_map.1 hx
      rw [hall l hl]
      rfl
    have hnr : runq.nr_threads = 0 := by
      simp only [runqCountInv] at hinv
      omega
    simp [thread_runq_get_next, hnr]
  · intro i a b rest hi hfront hempty hprio hnidle
    obtain h1 := thread_runq_get_next_dequeue runq hinv i a (b :: rest)
      hi hfront hempty
    have hgetset : (runq.lists.set i (b :: rest)).getD i [] = b :: rest := by
      rw [List.getD_eq_getElem?_getD,
        List.getElem?_set_self (by simpa using hi), Option.getD_some]
    refine ⟨{ runq with current := a, lists := runq.lists.set i (b :: rest) },
      { runq with
          current := a
          lists := runq.lists.set i (b :: (rest ++ [a])) }, h1, ?_, ?_⟩
    · simp only [thread_runq_put_prev, if_neg hnidle, hprio, List.length_set,
        if_pos hi, hgetset, List.set_set, Option.some.injEq, List.cons_append]
    · set runq₂ : ThreadRunq :=
        { runq with
            current := a
            lists := runq.lists.set i (b :: (rest ++ [a])) } with hrunq₂
      have hinv₂ : runqCountInv runq₂ := by
        have hinv' : runq.nr_threads = (runq.lists.map List.length).sum := hinv
        have hlensum := sum_map_length_set runq.lists i (b :: (rest ++ [a])) hi
        rw [hfront] at hlensum
        simp only [List.length_cons, List.length_append, List.length_nil]
          at hlensum
        show runq.nr_threads
          = ((runq.lists.set i (b :: (rest ++ [a]))).map List.length).sum
        omega
      have hget₂ : runq₂.lists.getD i [] = b :: (rest ++ [a]) := by
        rw [hrunq₂]
        exact List.getD_eq_getElem?_getD _ _ _ ▸ by
          rw [List.getElem?_set_self (by simpa using hi), Option.getD_some]
      have hempty₂ : ∀ j, i < j → j < runq₂.lists.length →
          runq₂.lists.getD j [] = [] := by
        intro j hj hj'
        rw [hrunq₂] at hj' ⊢
        simp only [List.length_set] at hj'
        rw [List.getD_eq_getElem?_getD, List.getElem?_set_ne (by omega),
          ← List.getD_eq_getElem?_getD]
        exact hempty j hj hj'
      have hi₂ : i < runq₂.lists.length := by
        rw [hrunq₂]
        simpa using hi
      exact ⟨_, thread_runq_get_next_dequeue runq₂ hinv₂ i b (rest ++ [a])
        hi₂ hget₂ hempty₂, rfl⟩

/-- Witness run queue for C2: one thread (id 7) enqueued at priority 19,
current thread id 0, idle thread id 9. -/
def wrunqC2 : ThreadRunq where
  current := 0
  nr_threads := 1
  lists := List.replicate 19 [] ++ [[7]]
  idle := 9
  threads := fun _ => { state := ThreadState.running, yield := false,
                        priority := 19 }

/-- Witness for C2: on `wrunqC2`, `thread_runq_get_next` dequeues thread 7
from the priority-19 list and makes it current. -/
theorem thread_runq_get_next_spec_witness :
    thread_runq_get_next wrunqC2 =
      some ({ wrunqC2 with current := 7, lists := wrunqC2.lists.set 19 [] },
            7) :=
  (thread_runq_get_next_spec wrunqC2 rfl).2.1 19 7 [] (by decide) rfl
    (fun j hj hj' => by
      have hl : wrunqC2.lists.length = 20 := rfl
      rw [hl] at hj'
      omega)

/-! ## Theorems for claim C3 -/

/-- C3: `thread_wakeup` is a no-op on a null argument, on the current thread
and on a thread already running; it fails its assertion (modelled as `none`)
on a dead thread; otherwise it sets the thread running, appends it at the
tail of its priority list, increments `nr_threads`, and sets the current
thread's yield flag exactly when the woken thread's priority strictly
exceeds the current thread's priority. -/
theorem thread_wakeup_spec (runq : ThreadRunq) (tid : Nat)
    (hprio : (runq.threads tid).priority < runq.lists.length) :
    (thread_wakeup runq none = some runq)
    ∧ (thread_wakeup runq (some runq.current) = some runq)
    ∧ ((runq.threads tid).state = ThreadState.running →
        thread_wakeup runq (some tid) = some runq)
    ∧ (tid ≠ runq.current → (runq.threads tid).state = ThreadState.dead →
        thread_wakeup runq (some tid) = none)
    ∧ (tid ≠ runq.current → (runq.threads tid).state = ThreadState.sleeping →
        ∃ runq', thread_wakeup runq (some tid) = some runq'
          ∧ (runq'.threads tid).state = ThreadState.running
          ∧ runq'.lists = runq.lists.set (runq.threads tid).priority
              (runq.lists.getD (runq.threads tid).priority [] ++ [tid])
          ∧ runq'.nr_threads = runq.nr_threads + 1
          ∧ (runq'.threads runq.current).yield
              = ((runq.threads runq.current).yield
                 || decide ((runq.threads runq.current).priority
                      < (runq.threads tid).priority))
          ∧ runq'.current = runq.current) := by
  refine ⟨rfl, by simp [thread_wakeup], ?_, ?_, ?_⟩
  · intro hrun
    by_cases hc : tid = runq.current
    · simp [thread_wakeup, hc]
    · simp [thread_wakeup, hc, hrun]
  · intro hne hdead
    simp [thread_wakeup, hne, hdead]
  · intro hne hsleep
    have hcur : runq.current ≠ tid := fun h => hne h.symm
    by_cases hgt : (runq.threads runq.current).priority
        < (runq.threads tid).priority
    · simp only [thread_wakeup, thread_runq_add, if_neg hne, hsleep]
      simp [hne, hcur, hprio, hgt]
    · simp only [thread_wakeup, thread_runq_add, if_neg hne, hsleep]
      simp [hne, hcur, hprio, hgt]

/-- Witness run queue for C3: thread 3 is sleeping at priority 5; the
current thread id 0 runs at priority 1. -/
def wrunqC3 : ThreadRunq where
  current := 0
  nr_threads := 0
  lists := List.replicate 20 []
  idle := 9
  threads := fun j =>
    if j = 3 then { state := ThreadState.sleeping, yield := false,
                    priority := 5 }
    else { state := ThreadState.running, yield := false, priority := 1 }

/-- Witness for C3: waking the sleeping thread 3 on `wrunqC3` enqueues it at
the tail of list 5, increments `nr_threads` and sets the current thread's
yield flag (5 > 1). -/
theorem thread_wakeup_spec_witness :
    ∃ runq', thread_wakeup wrunqC3 (some 3) = some runq'
      ∧ (runq'.threads 3).state = ThreadState.running
      ∧ runq'.lists = wrunqC3.lists.set (wrunqC3.threads 3).priority
          (wrunqC3.lists.getD (wrunqC3.threads 3).priority [] ++ [3])
      ∧ runq'.nr_threads = wrunqC3.nr_threads + 1
      ∧ (runq'.threads wrunqC3.current).yield
          = ((wrunqC3.threads wrunqC3.current).yield
             || decide ((wrunqC3.threads wrunqC3.current).priority
                  < (wrunqC3.threads 3).priority))
      ∧ runq'.current = wrunqC3.current :=
  (thread_wakeup_spec wrunqC3 3 (by decide)).2.2.2.2 (by decide) rfl

/-! ## Scheduler tick reporter (src/unnamed/part_002, ARM variant)

In this variant of the thread module the yield flag and the preemption level
live in the run queue itself rather than in each thread structure. -/

/-- `struct thread_runq` from src/unnamed/part_002 lines 79-86 (the fields
`thread_runq_tick` touches; the preemption level is a context assumption and
is not modelled). -/
structure ThreadRunqA where
  current : Nat
  yield : Bool
  nr_threads : Nat
  lists : List (List Nat)
  idle : Nat
  threads : Nat → Thread

/-- `list_singular` from lib/list.h lines 146-149: the list is non-empty and
its head's successor equals its predecessor, i.e. it holds exactly one
node. -/
def list_singular : List Nat → Bool
  | [_] => true
  | _ => false

/-- `thread_runq_tick` from src/unnamed/part_002 lines 409-426: read the
current thread's priority, fetch its list, and return without effect when
the list is singular and the priority is not the idle priority; otherwise
set the run queue's yield flag. `none` models the failed bounds assertion
in `thread_runq_get_list`. -/
def thread_runq_tick (runq : ThreadRunqA) : Option ThreadRunqA :=
  let priority := (runq.threads runq.current).priority
  if priority < runq.lists.length then
    let list := runq.lists.getD priority []
    if list_singular list ∧ priority ≠ THREAD_IDLE_PRIORITY then some runq
    else some { runq with yield := true }
  else none

/-! ## Theorems for claim C4 (corrected) -/

/-- Run queue refuting C4, input A: the current thread (id 0) runs at
priority 1 and its priority list is empty — no thread at all, let alone
more than one, sits in the list, and the current thread is not the idle
thread. -/
def wrunqC4a : ThreadRunqA where
  current := 0
  yield := false
  nr_threads := 0
  lists := List.replicate 20 []
  idle := 9
  threads := fun _ => { state := ThreadState.running, yield := false,
                        priority := 1 }

/-- Run queue refuting C4, input B: the current thread is the idle thread
(id 9, priority 0) and no other thread is runnable (all lists empty,
`nr_threads = 0`). -/
def wrunqC4b : ThreadRunqA where
  current := 9
  yield := false
  nr_threads := 0
  lists := List.replicate 20 []
  idle := 9
  threads := fun _ => { state := ThreadState.running, yield := false,
                        priority := 0 }

/-- Counterexample to C4 as stated: the tick reporter sets the yield flag
(a) on `wrunqC4a`, although the current priority list holds zero threads
(not more than one) and the current thread is not the idle thread, and
(b) on `wrunqC4b`, although the current thread is the idle thread and no
other thread is runnable; the claim requires the flag to be left unchanged
(false) in both cases. -/
theorem thread_runq_tick_counterexample :
    (∃ runq', thread_runq_tick wrunqC4a = some runq' ∧ runq'.yield = true)
    ∧ wrunqC4a.yield = false
    ∧ (wrunqC4a.lists.getD
        (wrunqC4a.threads wrunqC4a.current).priority []).length = 0
    ∧ wrunqC4a.current ≠ wrunqC4a.idle
    ∧ (wrunqC4a.threads wrunqC4a.current).priority ≠ THREAD_IDLE_PRIORITY
    ∧ (∃ runq', thread_runq_tick wrunqC4b = some runq' ∧ runq'.yield = true)
    ∧ wrunqC4b.yield = false
    ∧ wrunqC4b.current = wrunqC4b.idle
    ∧ wrunqC4b.nr_threads = 0 := by
  refine ⟨⟨_, rfl, rfl⟩, rfl, by decide, by decide, by decide,
    ⟨_, rfl, rfl⟩, rfl, rfl, rfl⟩

/-- C4 as amended: on a scheduler tick, `thread_runq_tick` leaves the yield
flag unchanged exactly when the current thread's priority list holds exactly
one thread and the current thread's priority is not the idle priority; in
every other case — the list empty, the list holding two or more threads, or
the current priority being the idle priority — it sets the yield flag. -/
theorem thread_runq_tick_amended (runq : ThreadRunqA)
    (hprio : (runq.threads runq.current).priority < runq.lists.length) :
    ((runq.lists.getD (runq.threads runq.current).priority []).length = 1 →
      (runq.threads runq.current).priority ≠ THREAD_IDLE_PRIORITY →
      thread_runq_tick runq = some runq)
    ∧ ((runq.lists.getD (runq.threads runq.current).priority []).length ≠ 1 ∨
        (runq.threads runq.current).priority = THREAD_IDLE_PRIORITY →
      thread_runq_tick runq = some { runq with yield := true }) := by
  have hsing : ∀ l : List Nat, list_singular l = true ↔ l.length = 1 := by
    intro l
    cases l with
    | nil => simp [list_singular]
    | cons x xs =>
      cases xs with
      | nil => simp [list_singular]
      | cons y ys => simp [list_singular]
  constructor
  · intro hlen hnidle
    simp only [thread_runq_tick, if_pos hprio]
    rw [if_pos ⟨(hsing _).mpr hlen, hnidle⟩]
  · intro hcase
    simp only [thread_runq_tick, if_pos hprio]
    rw [if_neg]
    rintro ⟨hs, hni⟩
    rcases hcase with hlen | hidle
    · exact hlen ((hsing _).mp hs)
    · exact hni hidle

/-- Witness for the amended C4: on `wrunqC4a` (empty current list, regular
priority) the tick sets the yield flag. -/
theorem thread_runq_tick_amended_witness :
    thread_runq_tick wrunqC4a = some { wrunqC4a with yield := true } :=
  (thread_runq_tick_amended wrunqC4a (by decide)).2 (Or.inl (by decide))

/-! ## Mutex (mutex.c, second unit of src/src/timer.c; struct in
src/unnamed/part_007)

Waiting threads are identified by `Nat` ids; the stack-local
`struct mutex_waiter` records reduce to the waiting thread's id. -/

/-- `struct mutex` from src/unnamed/part_007 lines 130-134: FIFO list of
waiters, owner pointer, locked flag. -/
structure Mutex where
  waiters : List Nat
  owner : Option Nat
  locked : Bool
deriving DecidableEq

/-- `mutex_init` from mutex.c lines 383-388 of src/src/timer.c: initialize
the waiter list and clear the locked flag. The owner field is not written. -/
def mutex_init (m : Mutex) : Mutex :=
  { m with waiters := [], locked := false }

/-- `mutex_set_owner` (mutex.c lines 390-398): assert no owner and not
locked, then record the owner and set the locked flag. `none` models a
failed assertion. -/
def mutex_set_owner (m : Mutex) (t : Nat) : Option Mutex :=
  if m.owner = none ∧ m.locked = false then
    some { m with owner := some t, locked := true }
  else none

/-- `mutex_clear_owner` (mutex.c lines 400-408): assert the caller owns the
locked mutex, then clear owner and locked flag. -/
def mutex_clear_owner (m : Mutex) (t : Nat) : Option Mutex :=
  if m.owner = some t ∧ m.locked = true then
    some { m with owner := none, locked := false }
  else none

/-- Entry of `mutex_lock` (mutex.c lines 410-435) up to the first sleep:
when the mutex is locked the caller initializes a stack-local waiter and
appends it at the tail of the wait list (`list_insert_tail`), then sleeps
(the returned flag `true` means the caller blocked); when unlocked the
caller takes ownership immediately. -/
def mutex_lock_enter (m : Mutex) (t : Nat) : Option (Mutex × Bool) :=
  if m.locked then some ({ m with waiters := m.waiters ++ [t] }, true)
  else (mutex_set_owner m t).map (fun m' => (m', false))

/-- Resumption of a blocked `mutex_lock` caller after a wakeup: the
`do { thread_sleep(); } while (mutex->locked);` loop re-checks the locked
flag; if still locked the caller sleeps again (flag `true`), otherwise it
unlinks its own waiter (`list_remove(&waiter.node)`) and takes
ownership. -/
def mutex_lock_resume (m : Mutex) (t : Nat) : Option (Mutex × Bool) :=
  if m.locked then some (m, true)
  else (mutex_set_owner { m with waiters := m.waiters.erase t } t).map
    (fun m' => (m', false))

/-- `mutex_unlock` (mutex.c lines 456-471): clear ownership, then wake the
first waiter of the list when one exists (`list_first_entry` followed by
`thread_wakeup`); the woken thread's id is returned alongside the new
mutex state. The waiter stays linked until the woken thread removes
itself. -/
def mutex_unlock (m : Mutex) (t : Nat) : Option (Mutex × Option Nat) :=
  (mutex_clear_owner m t).map (fun m' =>
    match m'.waiters with
    | [] => (m', none)
    | w :: _ => (m', some w))

/-! ## Theorems for claim C5 (corrected) -/

/-- Counterexample to C5 as stated: `mutex_init` run on a mutex whose owner
field holds thread 7 leaves the owner field equal to thread 7, not none. -/
theorem mutex_init_counterexample :
    (mutex_init { waiters := [4], owner := some 7, locked := true }).owner
      = some 7 := by decide

/-- C5 as amended: after `mutex_init m`, the mutex is unlocked and its wait
list is empty; the owner field is left unchanged (the code relies on the
static zero-initialization of mutexes, and on `mutex_clear_owner` always
nulling the owner before the locked flag is cleared, to keep the owner
none whenever the mutex is unlocked). -/
theorem mutex_init_amended (m : Mutex) :
    (mutex_init m).locked = false
    ∧ (mutex_init m).waiters = []
    ∧ (mutex_init m).owner = m.owner :=
  ⟨rfl, rfl, rfl⟩

/-! ## Theorems for claim C6 -/

/-- The contended-mutex scenario of C6: holder `h` locks a fresh mutex, then
`a`, `b`, `c` block on it in that order; three successive unlocks by the
respective holders follow, each woken thread resuming and acquiring. The
result collects, in order, the thread woken by each unlock and the owner
observed after each acquisition. -/
def mutex_scenario_fifo (h a b c : Nat) : Option (List Nat × List (Option Nat)) := do
  let m0 : Mutex := mutex_init { waiters := [], owner := none, locked := false }
  let (m1, _) ← mutex_lock_enter m0 h
  let (m2, _) ← mutex_lock_enter m1 a
  let (m3, _) ← mutex_lock_enter m2 b
  let (m4, _) ← mutex_lock_enter m3 c
  let (m5, w1?) ← mutex_unlock m4 h
  let w1 ← w1?
  let (m6, _) ← mutex_lock_resume m5 w1
  let o1 := m6.owner
  let (m7, w2?) ← mutex_unlock m6 w1
  let w2 ← w2?
  let (m8, _) ← mutex_lock_resume m7 w2
  let o2 := m8.owner
  let (m9, w3?) ← mutex_unlock m8 w2
  let w3 ← w3?
  let (m10, _) ← mutex_lock_resume m9 w3
  let o3 := m10.owner
  some ([w1, w2, w3], [o1, o2, o3])

/-- C6: a contending `mutex_lock` appends its waiter at the tail of the wait
list, `mutex_unlock` wakes the waiter at the head of the list when one
exists, and in the scenario where threads `a`, `b`, `c` block on a held
mutex in that order, three successive unlocks wake and hand ownership to
`a`, `b`, `c` in exactly that order. -/
theorem mutex_lock_unlock_fifo (m : Mutex) (t w : Nat) (rest : List Nat)
    (h a b c : Nat) :
    (m.locked = true →
      mutex_lock_enter m t = some ({ m with waiters := m.waiters ++ [t] }, true))
    ∧ (m.owner = some t → m.locked = true → m.waiters = w :: rest →
      mutex_unlock m t =
        some ({ m with owner := none, locked := false }, some w))
    ∧ mutex_scenario_fifo h a b c = some ([a, b, c], [some a, some b, some c]) := by
  refine ⟨?_, ?_, ?_⟩
  · intro hl
    simp [mutex_lock_enter, hl]
  · intro ho hl hw
    simp [mutex_unlock, mutex_clear_owner, ho, hl, hw]
  · have e1 : mutex_lock_enter
        (mutex_init { waiters := [], owner := none, locked := false }) h
        = some ({ waiters := [], owner := some h, locked := true }, false) := rfl
    have e2 : mutex_lock_enter
        { waiters := [], owner := some h, locked := true } a
        = some ({ waiters := [a], owner := some h, locked := true }, true) := rfl
    have e3 : mutex_lock_enter
        { waiters := [a], owner := some h, locked := true } b
        = some ({ waiters := [a, b], owner := some h, locked := true }, true) :=
      rfl
    have e4 : mutex_lock_enter
        { waiters := [a, b], owner := some h, locked := true } c
        = some ({ waiters := [a, b, c], owner := some h, locked := true },
                true) := rfl
    have e5 : mutex_unlock
        { waiters := [a, b, c], owner := some h, locked := true } h
        = some ({ waiters := [a, b, c], owner := none, locked := false },
                some a) := by
      simp [mutex_unlock, mutex_clear_owner]
    have e6 : mutex_lock_resume
        { waiters := [a, b, c], owner := none, locked := false } a
        = some ({ waiters := [b, c], owner := some a, locked := true },
                false) := by
      simp [mutex_lock_resume, mutex_set_owner, List.erase_cons_head]
    have e7 : mutex_unlock
        { waiters := [b, c], owner := some a, locked := true } a
        = some ({ waiters := [b, c], owner := none, locked := false },
                some b) := by
      simp [mutex_unlock, mutex_clear_owner]
    have e8 : mutex_lock_resume
        { waiters := [b, c], owner := none, locked := false } b
        = some ({ waiters := [c], owner := some b, locked := true },
                false) := by
      simp [mutex_lock_resume, mutex_set_owner, List.erase_cons_head]
    have e9 : mutex_unlock
        { waiters := [c], owner := some b, locked := true } b
        = some ({ waiters := [c], owner := none, locked := false },
                some c) := by
      simp [mutex_unlock, mutex_clear_owner]
    have e10 : mutex_lock_resume
        { waiters := [c], owner := none, locked := false } c
        = some ({ waiters := [], owner := some c, locked := true },
                false) := by
      simp [mutex_lock_resume, mutex_set_owner, List.erase_cons_head]
    simp only [mutex_scenario_fifo, Option.bind_eq_bind, e1, Option.some_bind,
      e2, e3, e4, e5, e6, e7, e8, e9, e10]

/-- Witness for C6: the wait-list append, the head wakeup, and the full
FIFO scenario evaluated at threads 10 (holder), 1, 2, 3. -/
theorem mutex_lock_unlock_fifo_witness :
    mutex_lock_enter { waiters := [1], owner := some 10, locked := true } 2
      = some ({ waiters := [1, 2], owner := some 10, locked := true }, true)
    ∧ mutex_unlock { waiters := [1, 2], owner := some 10, locked := true } 10
      = some ({ waiters := [1, 2], owner := none, locked := false }, some 1)
    ∧ mutex_scenario_fifo 10 1 2 3
      = some ([1, 2, 3], [some 1, some 2, some 3]) := by
  obtain h := mutex_lock_unlock_fifo
    { waiters := [1], owner := some 10, locked := true } 2 1 [2] 10 1 2 3
  refine ⟨h.1 rfl, ?_, h.2.2⟩
  obtain h' := mutex_lock_unlock_fifo
    { waiters := [1, 2], owner := some 10, locked := true } 10 1 [2] 10 1 2 3
  exact h'.2.1 rfl rfl rfl

/-! ## Condition variable (src/src/condvar.c) -/

/-- `struct condvar_waiter` from src/src/condvar.c lines 46-50: the waiting
thread (a `Nat` id here) and the awaken flag guarding against duplicate
wake-ups. -/
structure CondvarWaiter where
  thread : Nat
  awaken : Bool
deriving DecidableEq

/-- `condvar_waiter_wakeup` from src/src/condvar.c lines 65-75: when the
waiter was already awakened do nothing and report `false`; otherwise call
`thread_wakeup` on its thread, set the awaken flag, and report `true`.
The result pairs the updated waiter with the report. -/
def condvar_waiter_wakeup (w : CondvarWaiter) : CondvarWaiter × Bool :=
  if w.awaken then (w, false)
  else ({ w with awaken := true }, true)

/-- The `list_for_each_entry` loop of `condvar_signal` (src/src/condvar.c
lines 83-100): walk the waiter list, calling `condvar_waiter_wakeup` on each
record and stopping after the first successful wakeup. Returns the updated
waiter list together with the ids passed to `thread_wakeup`. -/
def condvar_signal : List CondvarWaiter → List CondvarWaiter × List Nat
  | [] => ([], [])
  | w :: ws =>
    let (w', awaken) := condvar_waiter_wakeup w
    if awaken then (w' :: ws, [w.thread])
    else
      let (ws', woken) := condvar_signal ws
      (w' :: ws', woken)

/-- The `list_for_each_entry` loop of `condvar_broadcast` (src/src/condvar.c
lines 102-133): walk the whole waiter list, calling `condvar_waiter_wakeup`
on every record. Returns the updated list together with the ids passed to
`thread_wakeup`, in list order. -/
def condvar_broadcast : List CondvarWaiter → List CondvarWaiter × List Nat
  | [] => ([], [])
  | w :: ws =>
    let (w', awaken) := condvar_waiter_wakeup w
    let (ws', woken) := condvar_broadcast ws
    (w' :: ws', if awaken then w.thread :: woken else woken)

/-! ## Theorems for claim C7 -/

/-- C7: `condvar_signal` wakes exactly the first waiter whose awaken flag is
false, setting that flag (waking none when every waiter is already
awakened); `condvar_broadcast` wakes exactly the waiters whose awaken flag
is false, setting every such flag, so each waiter record is woken at most
once per broadcast (the woken ids form a sublist of the waiters'
threads). -/
theorem condvar_signal_broadcast_spec (ws : List CondvarWaiter) :
    ((∀ w ∈ ws, w.awaken = true) → condvar_signal ws = (ws, []))
    ∧ (∀ pre w post, ws = pre ++ w :: post → (∀ u ∈ pre, u.awaken = true) →
        w.awaken = false →
        condvar_signal ws =
          (pre ++ { w with awaken := true } :: post, [w.thread]))
    ∧ condvar_broadcast ws =
        (ws.map (fun w => { w with awaken := true }),
         (ws.filter (fun w => !w.awaken)).map CondvarWaiter.thread)
    ∧ ((ws.map CondvarWaiter.thread).Nodup →
        (condvar_broadcast ws).2.Nodup) := by
  have hsig : ∀ l : List CondvarWaiter, (∀ w ∈ l, w.awaken = true) →
      condvar_signal l = (l, []) := by
    intro l
    induction l with
    | nil => intro _; rfl
    | cons w l ih =>
      intro hall
      have hw : w.awaken = true := hall w (by simp)
      simp only [condvar_signal, condvar_waiter_wakeup, hw,
        ih fun u hu => hall u (by simp [hu])]
      simp
  have hsig2 : ∀ pre (w : CondvarWaiter) post, (∀ u ∈ pre, u.awaken = true) →
      w.awaken = false →
      condvar_signal (pre ++ w :: post) =
        (pre ++ { w with awaken := true } :: post, [w.thread]) := by
    intro pre
    induction pre with
    | nil =>
      intro w post _ hw
      simp only [List.nil_append, condvar_signal, condvar_waiter_wakeup, hw]
      simp
    | cons u pre' ih =>
      intro w post hall hw
      have hu : u.awaken = true := hall u (by simp)
      simp [condvar_signal, condvar_waiter_wakeup, hu,
        ih w post (fun v hv => hall v (by simp [hv])) hw]
  have hbr : ∀ l : List CondvarWaiter,
      condvar_broadcast l =
        (l.map (fun w => { w with awaken := true }),
         (l.filter (fun w => !w.awaken)).map CondvarWaiter.thread) := by
    intro l
    induction l with
    | nil => rfl
    | cons w l ih =>
      obtain ⟨t, a⟩ := w
      cases a
      · simp only [condvar_broadcast, condvar_waiter_wakeup, ih]
        simp [List.filter_cons]
      · simp only [condvar_broadcast, condvar_waiter_wakeup, ih]
        simp [List.filter_cons]
  refine ⟨hsig ws, fun pre w post hdecomp hall hw => ?_, hbr ws, fun hn => ?_⟩
  · rw [hdecomp]
    exact hsig2 pre w post hall hw
  · rw [hbr ws]
    exact hn.sublist ((List.filter_sublist _).map _)

/-- Witness for C7: signal and broadcast evaluated on the waiter list
`[(5, awakened), (6, pending), (7, pending)]`: signal wakes exactly thread
6, broadcast wakes threads 6 and 7 once each. -/
theorem condvar_signal_broadcast_spec_witness :
    condvar_signal
        [{ thread := 5, awaken := true }, { thread := 6, awaken := false },
         { thread := 7, awaken := false }]
      = ([{ thread := 5, awaken := true }, { thread := 6, awaken := true },
          { thread := 7, awaken := false }], [6])
    ∧ (condvar_broadcast
        [{ thread := 5, awaken := true }, { thread := 6, awaken := false },
         { thread := 7, awaken := false }]).2 = [6, 7] := by
  obtain h := condvar_signal_broadcast_spec
    [{ thread := 5, awaken := true }, { thread := 6, awaken := false },
     { thread := 7, awaken := false }]
  refine ⟨?_, ?_⟩
  · have := h.2.1 [{ thread := 5, awaken := true }]
      { thread := 6, awaken := false } [{ thread := 7, awaken := false }]
      rfl (by decide) rfl
    simpa using this
  · rw [h.2.2.1]
    decide

/-! ## Heap allocator (src/src/mem.c)

The heap is modelled as the physical sequence of blocks, each carrying its
header and footer boundary-tag values separately (the C code stores them at
the two ends of the block), together with the free list as the list of block
byte offsets from the heap base, most recently freed first
(`list_insert_head`). `size_t` is 32 bits wide on the i386 target, so a
boundary tag holds 4 bytes and a free-list node (a `struct list` of two
pointers) 8 bytes. -/

/-- `MEM_HEAP_SIZE` from src/src/mem.c line 147. -/
def MEM_HEAP_SIZE : Nat := 64 * 1024

/-- `MEM_ALIGN` from src/src/mem.c line 154. -/
def MEM_ALIGN : Nat := 8

/-- `MEM_BTAG_ALLOCATED_MASK` from src/src/mem.c line 184. -/
def MEM_BTAG_ALLOCATED_MASK : Nat := 1

/-- `MEM_BTAG_SIZE_MASK = ~MEM_BTAG_ALLOCATED_MASK` on a 32-bit `size_t`. -/
def MEM_BTAG_SIZE_MASK : Nat := 2 ^ 32 - 2

/-- Unary minus on a 32-bit unsigned operand. -/
def neg32 (x : Nat) : Nat := (2 ^ 32 - x % 2 ^ 32) % 2 ^ 32

/-- `P2ROUND(x, a) = -(-(x) & -(a))` from lib/macros.h line 57, computed on
32-bit unsigned operands. -/
def P2ROUND (x a : Nat) : Nat := neg32 (neg32 x &&& neg32 a)

/-- `sizeof(struct mem_btag)`: one 32-bit `size_t`. -/
def mem_btag_bytes : Nat := 4

/-- `sizeof(struct mem_free_node)`: one `struct list`, two 32-bit
pointers. -/
def mem_free_node_bytes : Nat := 8

/-- `MEM_BLOCK_MIN_SIZE` from src/src/mem.c lines 161-162. -/
def MEM_BLOCK_MIN_SIZE : Nat :=
  P2ROUND (mem_btag_bytes * 2 + mem_free_node_bytes) MEM_ALIGN

/-- `offsetof(struct mem_block, payload)`: the header tag occupies bytes 0-3
and the flexible `payload` member carries `__aligned(MEM_ALIGN)`, placing it
at offset 8. -/
def mem_block_payload_offset : Nat := 8

/-- `mem_btag_size` from src/src/mem.c lines 292-296. -/
def mem_btag_size (v : Nat) : Nat := v &&& MEM_BTAG_SIZE_MASK

/-- `mem_btag_allocated` from src/src/mem.c lines 274-278. -/
def mem_btag_allocated (v : Nat) : Bool :=
  v &&& MEM_BTAG_ALLOCATED_MASK != 0

/-- `mem_btag_set_allocated` from src/src/mem.c lines 280-284. -/
def mem_btag_set_allocated (v : Nat) : Nat :=
  v ||| MEM_BTAG_ALLOCATED_MASK

/-- `mem_btag_clear_allocated` from src/src/mem.c lines 286-290. -/
def mem_btag_clear_allocated (v : Nat) : Nat :=
  v &&& MEM_BTAG_SIZE_MASK

/-- `mem_btag_init` from src/src/mem.c lines 298-303: store the size and set
the allocation flag. -/
def mem_btag_init (size : Nat) : Nat := mem_btag_set_allocated size

/-! Bit-level bridge lemmas for the boundary-tag values the allocator
writes: an even (8-aligned) 32-bit size with the allocation bit either set
or clear. -/

lemma testBit_mask32 (i : Nat) :
    (2 ^ 32 - 2).testBit i = (decide (1 ≤ i) && decide (i < 32)) := by
  cases i with
  | zero => decide
  | succ n =>
    rw [Nat.testBit_succ]
    have h2 : (2 ^ 32 - 2) / 2 = 2 ^ 31 - 1 := by norm_num
    rw [h2, Nat.testBit_two_pow_sub_one]
    by_cases h : n < 31
    · have h32 : n + 1 < 32 := by omega
      simp [h, h32]
    · have h32 : ¬ (n + 1 < 32) := by omega
      simp [h, h32]

lemma testBit_ge32_false {s i : Nat} (hlt : s < 2 ^ 32) (hi : 32 ≤ i) :
    s.testBit i = false :=
  Nat.testBit_lt_two_pow
    (lt_of_lt_of_le hlt (Nat.pow_le_pow_right (by norm_num) hi))

lemma land_mask32_even {s : Nat} (h2 : s % 2 = 0) (hlt : s < 2 ^ 32) :
    s &&& (2 ^ 32 - 2) = s := by
  apply Nat.eq_of_testBit_eq
  intro i
  rw [Nat.testBit_land, testBit_mask32]
  match i with
  | 0 =>
    have hs : s.testBit 0 = false := by
      rw [Nat.testBit_zero]
      simp
      omega
    simp [hs]
  | n + 1 =>
    by_cases h32 : n + 1 < 32
    · simp [h32, Nat.one_le_iff_ne_zero]
    · have hbit : s.testBit (n + 1) = false := testBit_ge32_false hlt (by omega)
      simp [h32, hbit]

lemma testBit_succ_even {s : Nat} (h2 : s % 2 = 0) (n : Nat) :
    (s + 1).testBit (n + 1) = s.testBit (n + 1) := by
  rw [Nat.testBit_succ, Nat.testBit_succ]
  congr 1
  omega

lemma land_mask32_succ_even {s : Nat} (h2 : s % 2 = 0) (hlt : s < 2 ^ 32) :
    (s + 1) &&& (2 ^ 32 - 2) = s := by
  apply Nat.eq_of_testBit_eq
  intro i
  rw [Nat.testBit_land, testBit_mask32]
  match i with
  | 0 =>
    have hs : s.testBit 0 = false := by
      rw [Nat.testBit_zero]
      simp
      omega
    simp [hs]
  | n + 1 =>
    by_cases h32 : n + 1 < 32
    · simp [h32, Nat.one_le_iff_ne_zero, testBit_succ_even h2]
    · have hbit : s.testBit (n + 1) = false := testBit_ge32_false hlt (by omega)
      have hbit' : (s + 1).testBit (n + 1) = false := by
        rw [testBit_succ_even h2]
        exact hbit
      simp [h32, hbit, hbit']

lemma lor_one_even {s : Nat} (h2 : s % 2 = 0) : s ||| 1 = s + 1 := by
  apply Nat.eq_of_testBit_eq
  intro i
  rw [Nat.testBit_lor]
  match i with
  | 0 =>
    have hs : s.testBit 0 = false := by
      rw [Nat.testBit_zero]
      simp
      omega
    have hs' : (s + 1).testBit 0 = true := by
      rw [Nat.testBit_zero]
      simp
      omega
    simp [hs, hs']
  | n + 1 =>
    have h1 : (1 : Nat).testBit (n + 1) = false := by
      rw [Nat.testBit_succ]
      simp
    rw [h1, testBit_succ_even h2]
    simp

lemma lor_one_odd {s : Nat} (h2 : s % 2 = 1) : s ||| 1 = s := by
  apply Nat.eq_of_testBit_eq
  intro i
  rw [Nat.testBit_lor]
  match i with
  | 0 =>
    have hs : s.testBit 0 = true := by
      rw [Nat.testBit_zero]
      simp
      omega
    simp [hs]
  | n + 1 =>
    have h1 : (1 : Nat).testBit (n + 1) = false := by
      rw [Nat.testBit_succ]
      simp
    simp [h1]

lemma land_one_mod (s : Nat) : s &&& 1 = s % 2 := Nat.and_one_is_mod s

/-- A heap block: the header and footer boundary-tag values, stored at the
two ends of the block in C (`struct mem_block` and `mem_block_footer_btag`,
src/src/mem.c lines 209-212 and 363-384). The physical extent of the block
is the size recorded in its header tag. -/
structure MemBlock where
  hvalue : Nat
  fvalue : Nat
deriving DecidableEq

/-- `mem_block_size` from src/src/mem.c lines 305-309 (reads the header
tag). -/
def mem_block_size (b : MemBlock) : Nat := mem_btag_size b.hvalue

/-- `mem_block_allocated` from src/src/mem.c lines 411-415 (reads the header
tag). -/
def mem_block_allocated (b : MemBlock) : Bool := mem_btag_allocated b.hvalue

/-- `mem_block_set_allocated` from src/src/mem.c lines 417-422: set the flag
in both tags. -/
def mem_block_set_allocated (b : MemBlock) : MemBlock :=
  { hvalue := mem_btag_set_allocated b.hvalue,
    fvalue := mem_btag_set_allocated b.fvalue }

/-- `mem_block_clear_allocated` from src/src/mem.c lines 424-429: clear the
flag in both tags. -/
def mem_block_clear_allocated (b : MemBlock) : MemBlock :=
  { hvalue := mem_btag_clear_allocated b.hvalue,
    fvalue := mem_btag_clear_allocated b.fvalue }

/-- `mem_block_init` from src/src/mem.c lines 431-436: initialize both tags
with the size, allocation flag set. -/
def mem_block_init (size : Nat) : MemBlock :=
  { hvalue := mem_btag_init size, fvalue := mem_btag_init size }

/-- The heap: the physical sequence of blocks starting at the (8-byte
aligned) heap base, and the free list of block byte offsets, head-inserted
(`mem_free_list_add` uses `list_insert_head`). -/
structure MemHeap where
  blocks : List MemBlock
  free : List Nat
deriving DecidableEq

/-- Byte offset of block `i` from the heap base: the C block pointer is
reached by adding the sizes of the preceding blocks. -/
def addrOfIdx (blocks : List MemBlock) (i : Nat) : Nat :=
  ((blocks.take i).map mem_block_size).sum

/-- Walk of the physical block sequence locating the block whose byte offset
is `a` (the inverse of a C block pointer; `base` and `i` accumulate the
offset and index). -/
def idxOfAddrGo (a : Nat) : Nat → Nat → List MemBlock → Option Nat
  | _, _, [] => none
  | base, i, b :: bs =>
    if base = a then some i
    else idxOfAddrGo a (base + mem_block_size b) (i + 1) bs

/-- Index of the block whose byte offset is `a`, when it exists. -/
def idxOfAddr (blocks : List MemBlock) (a : Nat) : Option Nat :=
  idxOfAddrGo a 0 0 blocks

/-- `mem_free_list_add` from src/src/mem.c lines 462-484: assert the block
is allocated (`none` on failure), clear its allocation flag, and push its
address at the head of the free list (`list_insert_head`). -/
def mem_free_list_add (h : MemHeap) (i : Nat) : Option MemHeap :=
  match h.blocks.get? i with
  | none => none
  | some b =>
    if mem_block_allocated b then
      some { blocks := h.blocks.set i (mem_block_clear_allocated b),
             free := addrOfIdx h.blocks i :: h.free }
    else none

/-- `mem_free_list_remove` from src/src/mem.c lines 486-498: assert the block
is free (`none` on failure), unlink its free-list node, and set its
allocation flag. -/
def mem_free_list_remove (h : MemHeap) (i : Nat) : Option MemHeap :=
  match h.blocks.get? i with
  | none => none
  | some b =>
    if mem_block_allocated b then none
    else
      some { blocks := h.blocks.set i (mem_block_set_allocated b),
             free := h.free.erase (addrOfIdx h.blocks i) }

/-- `mem_block_split` from src/src/mem.c lines 547-566: assert the block is
allocated and the wanted size aligned; when the block is too small to split
leave it whole (`false`), otherwise reinitialize it at the wanted size and
carve the remainder into a fresh block right after it (`true`). -/
def mem_block_split (blocks : List MemBlock) (i size : Nat) :
    Option (List MemBlock × Bool) :=
  match blocks.get? i with
  | none => none
  | some b =>
    if mem_block_allocated b = false then none
    else if size % MEM_ALIGN != 0 then none
    else if mem_block_size b < size + MEM_BLOCK_MIN_SIZE then
      some (blocks, false)
    else
      some (blocks.take i
              ++ mem_block_init size
              :: mem_block_init (mem_block_size b - size)
              :: blocks.drop (i + 1), true)

/-- `mem_block_merge` from src/src/mem.c lines 568-590, applied to the
physically adjacent blocks `i` and `i + 1`: when either is allocated nothing
happens (`false`, the C function returns NULL); otherwise both leave the
free list, the two blocks become one of the summed size at the lower
address, and the merged block re-enters the free list (`true`). -/
def mem_block_merge (h : MemHeap) (i : Nat) : Option (MemHeap × Bool) :=
  match h.blocks.get? i, h.blocks.get? (i + 1) with
  | some b1, some b2 =>
    if mem_block_allocated b1 || mem_block_allocated b2 then some (h, false)
    else
      match mem_free_list_remove h i with
      | none => none
      | some h1 =>
        match mem_free_list_remove h1 (i + 1) with
        | none => none
        | some h2 =>
          let h3 : MemHeap :=
            { h2 with
                blocks := h2.blocks.take i
                  ++ mem_block_init (mem_block_size b1 + mem_block_size b2)
                  :: h2.blocks.drop (i + 2) }
          match mem_free_list_add h3 i with
          | none => none
          | some h4 => some (h4, true)
  | _, _ => none

/-- The `mem_block_prev` stage of `mem_free` (src/src/mem.c lines 675-683):
when the freed block does not start the heap, try to merge it with its
physical predecessor; when the merge succeeds the surviving block is the
predecessor. Returns the heap and the index of the surviving block. -/
def mem_free_merge_prev (h1 : MemHeap) (i : Nat) : Option (MemHeap × Nat) :=
  if i = 0 then some (h1, i)
  else do
    let (h', merged) ← mem_block_merge h1 (i - 1)
    some (if merged then (h', i - 1) else (h', i))

/-- The `mem_block_next` stage of `mem_free` (src/src/mem.c lines 685-689):
when the surviving block does not end the heap, try to merge it with its
physical successor. -/
def mem_free_merge_next (h2 : MemHeap) (i2 : Nat) : Option MemHeap :=
  if i2 + 1 < h2.blocks.length then do
    let (h3, _) ← mem_block_merge h2 i2
    some h3
  else some h2

/-- `mem_free` from src/src/mem.c lines 657-692: a null pointer is a no-op;
otherwise assert the payload pointer is aligned and points into the heap
(`none` models the failed assertion), put the block on the free list, then
try to merge with the physical predecessor (found through its footer tag;
absent when the block starts the heap) and with the physical successor
(absent when the block ends the heap). -/
def mem_free (h : MemHeap) (ptr : Option Nat) : Option MemHeap :=
  match ptr with
  | none => some h
  | some p =>
    if p % MEM_ALIGN != 0 then none
    else
      match idxOfAddr h.blocks (p - mem_block_payload_offset) with
      | none => none
      | some i => do
        let h1 ← mem_free_list_add h i
        let (h2, i2) ← mem_free_merge_prev h1 i
        mem_free_merge_next h2 i2

/-- `mem_convert_to_block_size` from src/src/mem.c lines 604-620: round the
request up to the alignment, add the two boundary tags (32-bit `size_t`
arithmetic throughout), and clamp below by the minimum block size. -/
def mem_convert_to_block_size (size : Nat) : Nat :=
  let size1 := P2ROUND size MEM_ALIGN
  let size2 := (size1 + mem_btag_bytes * 2) % 2 ^ 32
  if size2 < MEM_BLOCK_MIN_SIZE then MEM_BLOCK_MIN_SIZE else size2

/-- `mem_free_list_find` from src/src/mem.c lines 500-526: first-fit walk of
the free list, returning the address (paired here with the index) of the
first free block at least as large as the request. The outer `none` models
a dangling free-list entry (heap corruption); the inner `none` is an
unsuccessful search. -/
def mem_free_list_find (blocks : List MemBlock) (size : Nat) :
    List Nat → Option (Option (Nat × Nat))
  | [] => some none
  | a :: rest =>
    match idxOfAddr blocks a with
    | none => none
    | some i =>
      match blocks.get? i with
      | none => none
      | some b =>
        if size ≤ mem_block_size b then some (some (a, i))
        else mem_free_list_find blocks size rest

/-- `mem_alloc` from src/src/mem.c lines 622-655: a zero request returns
null; otherwise convert to a block size, first-fit search the free list
(failure returns null), take the found block off the free list, split off
the unneeded tail when large enough, and return the payload pointer,
8 bytes past the block start. -/
def mem_alloc (h : MemHeap) (size : Nat) : Option (MemHeap × Option Nat) :=
  if size = 0 then some (h, none)
  else
    let bsize := mem_convert_to_block_size size
    match mem_free_list_find h.blocks bsize h.free with
    | none => none
    | some none => some (h, none)
    | some (some (a, i)) => do
      let h1 ← mem_free_list_remove h i
      let (blocks2, didSplit) ← mem_block_split h1.blocks i bsize
      let h2 : MemHeap := { h1 with blocks := blocks2 }
      let h3 ← if didSplit then mem_free_list_add h2 (i + 1) else some h2
      some (h3, some (a + mem_block_payload_offset))

/-- `mem_setup` from src/src/mem.c lines 592-602: the heap starts as one
block covering the whole region, initialized allocated and immediately put
on the (empty) free list. -/
def mem_setup : Option MemHeap :=
  mem_free_list_add { blocks := [mem_block_init MEM_HEAP_SIZE], free := [] } 0

/-! ## Heap invariants -/

/-- Agreement of a block's header and footer boundary tags in size and
allocation bit — the property claimed by the spec. -/
def btags_agree (b : MemBlock) : Prop :=
  mem_btag_size b.hvalue = mem_btag_size b.fvalue
  ∧ mem_btag_allocated b.hvalue = mem_btag_allocated b.fvalue

/-- Well-formedness of a block as maintained by the allocator: the header
and footer values are equal (every write goes to both tags) and encode an
8-aligned size between the minimum block size and the heap size, with the
allocation bit possibly set. -/
def wfBlock (b : MemBlock) : Prop :=
  b.hvalue = b.fvalue
  ∧ ∃ s, s % MEM_ALIGN = 0 ∧ MEM_BLOCK_MIN_SIZE ≤ s ∧ s ≤ MEM_HEAP_SIZE
      ∧ (b.hvalue = s ∨ b.hvalue = s + 1)

/-- Well-formedness of the heap's block sequence: every block is
well-formed and the blocks exactly cover the heap. -/
def wfBlocks (blocks : List MemBlock) : Prop :=
  (∀ b ∈ blocks, wfBlock b)
  ∧ (blocks.map mem_block_size).sum = MEM_HEAP_SIZE

/-- No two physically adjacent blocks are both free. -/
def noAdjacentFree (blocks : List MemBlock) : Prop :=
  List.Chain' (fun b1 b2 =>
    mem_block_allocated b1 = true ∨ mem_block_allocated b2 = true) blocks

lemma MEM_BLOCK_MIN_SIZE_eq : MEM_BLOCK_MIN_SIZE = 16 := by decide

/-- Evaluation of the boundary-tag readers and writers on a canonical even
size, with and without the allocation bit. -/
lemma mem_btag_ops_even {s : Nat} (h2 : s % 2 = 0) (hlt : s < 2 ^ 32) :
    mem_btag_size s = s ∧ mem_btag_size (s + 1) = s
    ∧ mem_btag_allocated s = false ∧ mem_btag_allocated (s + 1) = true
    ∧ mem_btag_set_allocated s = s + 1 ∧ mem_btag_set_allocated (s + 1) = s + 1
    ∧ mem_btag_clear_allocated s = s
    ∧ mem_btag_clear_allocated (s + 1) = s
    ∧ mem_btag_init s = s + 1 := by
  refine ⟨?_, ?_, ?_, ?_, ?_, ?_, ?_, ?_, ?_⟩
  · exact land_mask32_even h2 hlt
  · exact land_mask32_succ_even h2 hlt
  · simp only [mem_btag_allocated, MEM_BTAG_ALLOCATED_MASK, land_one_mod, h2]
    rfl
  · have : (s + 1) % 2 = 1 := by omega
    simp only [mem_btag_allocated, MEM_BTAG_ALLOCATED_MASK, land_one_mod, this]
    rfl
  · exact lor_one_even h2
  · exact lor_one_odd (by omega)
  · exact land_mask32_even h2 hlt
  · exact land_mask32_succ_even h2 hlt
  · exact lor_one_even h2

/-- Size bounds recorded in `wfBlock` imply the arithmetic side conditions
of the bit-level lemmas. -/
lemma wf_size_bounds {s : Nat} (h8 : s % MEM_ALIGN = 0)
    (hmax : s ≤ MEM_HEAP_SIZE) : s % 2 = 0 ∧ s < 2 ^ 32 := by
  simp only [MEM_ALIGN] at h8
  simp only [MEM_HEAP_SIZE] at hmax
  omega

/-- Full evaluation of a well-formed block: its size, tags and allocation
flag. -/
lemma wfBlock_elim {b : MemBlock} (hb : wfBlock b) :
    ∃ s, s % MEM_ALIGN = 0 ∧ MEM_BLOCK_MIN_SIZE ≤ s ∧ s ≤ MEM_HEAP_SIZE
      ∧ mem_block_size b = s ∧ b.hvalue = b.fvalue
      ∧ ((b.hvalue = s ∧ mem_block_allocated b = false)
         ∨ (b.hvalue = s + 1 ∧ mem_block_allocated b = true)) := by
  obtain ⟨heq, s, h8, hmin, hmax, hv⟩ := hb
  obtain ⟨h2, hlt⟩ := wf_size_bounds h8 hmax
  obtain ⟨hs1, hs2, ha1, ha2, -⟩ := mem_btag_ops_even h2 hlt
  refine ⟨s, h8, hmin, hmax, ?_, heq, ?_⟩
  · rcases hv with hv | hv <;>
      simp [mem_block_size, hv, hs1, hs2]
  · rcases hv with hv | hv
    · exact Or.inl ⟨hv, by simp [mem_block_allocated, hv, ha1]⟩
    · exact Or.inr ⟨hv, by simp [mem_block_allocated, hv, ha2]⟩

/-- A well-formed block's header and footer tags agree in size and
allocation bit. -/
lemma wfBlock_btags_agree {b : MemBlock} (hb : wfBlock b) : btags_agree b := by
  obtain ⟨heq, -⟩ := hb
  exact ⟨by rw [heq], by rw [heq]⟩

/-- Clearing the allocation flag of a well-formed block keeps it well
formed, preserves its size, and leaves it free. -/
lemma wfBlock_clear {b : MemBlock} (hb : wfBlock b) :
    wfBlock (mem_block_clear_allocated b)
    ∧ mem_block_size (mem_block_clear_allocated b) = mem_block_size b
    ∧ mem_block_allocated (mem_block_clear_allocated b) = false := by
  obtain ⟨heq, s, h8, hmin, hmax, hv⟩ := hb
  obtain ⟨h2, hlt⟩ := wf_size_bounds h8 hmax
  obtain ⟨hs1, hs2, ha1, -, -, -, hc1, hc2, -⟩ := mem_btag_ops_even h2 hlt
  have hval : mem_btag_clear_allocated b.hvalue = s := by
    rcases hv with hv | hv <;> rw [hv] <;> [exact hc1; exact hc2]
  have hsize : mem_block_size b = s := by
    rcases hv with hv | hv <;> simp [mem_block_size, hv, hs1, hs2]
  refine ⟨⟨?_, s, h8, hmin, hmax, Or.inl ?_⟩, ?_, ?_⟩
  · simp [mem_block_clear_allocated, heq]
  · simp [mem_block_clear_allocated, hval]
  · simp only [mem_block_size, mem_block_clear_allocated, hval, hs1]
    exact hsize.symm
  · simp [mem_block_allocated, mem_block_clear_allocated, hval, ha1]

/-- Setting the allocation flag of a well-formed block keeps it well formed,
preserves its size, and leaves it allocated. -/
lemma wfBlock_set_alloc {b : MemBlock} (hb : wfBlock b) :
    wfBlock (mem_block_set_allocated b)
    ∧ mem_block_size (mem_block_set_allocated b) = mem_block_size b
    ∧ mem_block_allocated (mem_block_set_allocated b) = true := by
  obtain ⟨heq, s, h8, hmin, hmax, hv⟩ := hb
  obtain ⟨h2, hlt⟩ := wf_size_bounds h8 hmax
  obtain ⟨hs1, hs2, -, ha2, hset1, hset2, -, -, -⟩ := mem_btag_ops_even h2 hlt
  have hval : mem_btag_set_allocated b.hvalue = s + 1 := by
    rcases hv with hv | hv <;> rw [hv] <;> [exact hset1; exact hset2]
  have hsize : mem_block_size b = s := by
    rcases hv with hv | hv <;> simp [mem_block_size, hv, hs1, hs2]
  refine ⟨⟨?_, s, h8, hmin, hmax, Or.inr ?_⟩, ?_, ?_⟩
  · simp [mem_block_set_allocated, heq]
  · simp [mem_block_set_allocated, hval]
  · simp only [mem_block_size, mem_block_set_allocated, hval, hs2]
    exact hsize.symm
  · simp [mem_block_allocated, mem_block_set_allocated, hval, ha2]

/-- A freshly initialized block of a canonical size is well formed,
allocated, and of that size. -/
lemma wfBlock_init {s : Nat} (h8 : s % MEM_ALIGN = 0)
    (hmin : MEM_BLOCK_MIN_SIZE ≤ s) (hmax : s ≤ MEM_HEAP_SIZE) :
    wfBlock (mem_block_init s)
    ∧ mem_block_size (mem_block_init s) = s
    ∧ mem_block_allocated (mem_block_init s) = true := by
  obtain ⟨h2, hlt⟩ := wf_size_bounds h8 hmax
  obtain ⟨-, hs2, -, ha2, -, -, -, -, hinit⟩ := mem_btag_ops_even h2 hlt
  refine ⟨⟨rfl, s, h8, hmin, hmax, Or.inr ?_⟩, ?_, ?_⟩
  · simp [mem_block_init, hinit]
  · simp [mem_block_size, mem_block_init, hinit, hs2]
  · simp [mem_block_allocated, mem_block_init, hinit, ha2]

/-! List surgery helpers used by the heap proofs. -/

lemma sum_map_size_set (blocks : List MemBlock) (i : Nat) (b b' : MemBlock)
    (hget : blocks.get? i = some b) :
    ((blocks.set i b').map mem_block_size).sum + mem_block_size b
      = (blocks.map mem_block_size).sum + mem_block_size b' := by
  induction blocks generalizing i with
  | nil => simp at hget
  | cons x xs ih =>
    cases i with
    | zero =>
      simp only [List.get?_eq_getElem?, List.getElem?_cons_zero,
        Option.some.injEq] at hget
      subst hget
      simp only [List.set_cons_zero, List.map_cons, List.sum_cons]
      omega
    | succ n =>
      simp only [List.get?_eq_getElem?, List.getElem?_cons_succ] at hget
      have := ih n (by simpa [List.get?_eq_getElem?] using hget)
      simp only [List.set_cons_succ, List.map_cons, List.sum_cons]
      omega

lemma decomp_of_get? {l : List MemBlock} {i : Nat} {b : MemBlock}
    (h : l.get? i = some b) : l = l.take i ++ b :: l.drop (i + 1) := by
  have hlt : i < l.length := by
    rw [List.get?_eq_getElem?] at h
    exact (List.getElem?_eq_some_iff.1 h).1
  have hb : l[i] = b := by
    rw [List.get?_eq_getElem?, List.getElem?_eq_getElem hlt,
      Option.some.injEq] at h
    exact h
  conv_lhs => rw [← List.take_append_drop i l]
  rw [← List.getElem_cons_drop l i hlt, hb]

lemma take_set_of_le {α : Type} (l : List α) (i j : Nat) (a : α)
    (h : i ≤ j) : (l.set j a).take i = l.take i := by
  induction l generalizing i j with
  | nil => simp
  | cons x xs ih =>
    cases j with
    | zero =>
      interval_cases i
      simp
    | succ m =>
      cases i with
      | zero => simp
      | succ n =>
        simp only [List.set_cons_succ, List.take_succ_cons]
        rw [ih n m (by omega)]

lemma set_append_length {α : Type} (l1 l2 : List α) (x y : α) :
    (l1 ++ x :: l2).set l1.length y = l1 ++ y :: l2 := by
  rw [List.set_append]
  simp

lemma getElem?_append_length {α : Type} (l1 l2 : List α) (x : α) :
    (l1 ++ x :: l2)[l1.length]? = some x := by
  rw [List.getElem?_append]
  simp

/-- Specification of the address-to-index walk: a successful lookup yields
an in-range index whose byte offset is the address looked up. -/
lemma idxOfAddrGo_spec (a : Nat) :
    ∀ (blocks : List MemBlock) (base j i : Nat),
      idxOfAddrGo a base j blocks = some i →
      j ≤ i ∧ i - j < blocks.length
        ∧ base + ((blocks.take (i - j)).map mem_block_size).sum = a := by
  intro blocks
  induction blocks with
  | nil => intro base j i h; simp [idxOfAddrGo] at h
  | cons b bs ih =>
    intro base j i h
    rw [idxOfAddrGo] at h
    by_cases hbase : base = a
    · rw [if_pos hbase] at h
      obtain rfl : j = i := by simpa using h
      simp [hbase]
    · rw [if_neg hbase] at h
      obtain ⟨hj, hlen, hsum⟩ := ih (base + mem_block_size b) (j + 1) i h
      refine ⟨by omega, by simp; omega, ?_⟩
      have hij : i - j = (i - (j + 1)) + 1 := by omega
      rw [hij, List.take_succ_cons, List.map_cons, List.sum_cons]
      omega

/-- Specification of `idxOfAddr`: a successful lookup yields an in-range
index whose byte offset is the address looked up. -/
lemma idxOfAddr_spec {blocks : List MemBlock} {a i : Nat}
    (h : idxOfAddr blocks a = some i) :
    i < blocks.length ∧ addrOfIdx blocks i = a := by
  obtain ⟨-, hlen, hsum⟩ := idxOfAddrGo_spec a blocks 0 0 i h
  rw [Nat.sub_zero] at hlen hsum
  rw [Nat.zero_add] at hsum
  exact ⟨hlen, hsum⟩

lemma get?_set_ne {α : Type} (l : List α) {i j : Nat} (a : α) (h : i ≠ j) :
    (l.set i a).get? j = l.get? j := by
  rw [List.get?_eq_getElem?, List.get?_eq_getElem?, List.getElem?_set_ne h]

lemma get?_set_self {α : Type} (l : List α) {i : Nat} (a : α)
    (h : i < l.length) : (l.set i a).get? i = some a := by
  rw [List.get?_eq_getElem?, List.getElem?_set_self h]

lemma lt_length_of_get? {α : Type} {l : List α} {i : Nat} {a : α}
    (h : l.get? i = some a) : i < l.length := by
  rw [List.get?_eq_getElem?] at h
  exact (List.getElem?_eq_some_iff.1 h).1

lemma decomp2_of_get? {l : List MemBlock} {i : Nat} {b1 b2 : MemBlock}
    (h1 : l.get? i = some b1) (h2 : l.get? (i + 1) = some b2) :
    l = l.take i ++ b1 :: b2 :: l.drop (i + 2) := by
  have hlt2 : i + 1 < l.length := lt_length_of_get? h2
  have hb2 : l[i + 1] = b2 := by
    rw [List.get?_eq_getElem?, List.getElem?_eq_getElem hlt2,
      Option.some.injEq] at h2
    exact h2
  have hdrop : l.drop (i + 1) = b2 :: l.drop (i + 2) := by
    rw [← List.getElem_cons_drop l (i + 1) hlt2, hb2]
  conv_lhs => rw [decomp_of_get? h1, hdrop]

/-- Well-formedness is preserved by replacing one block with a well-formed
block of the same size. -/
lemma wfBlocks_set {blocks : List MemBlock} {i : Nat} {b b' : MemBlock}
    (hwf : wfBlocks blocks) (hget : blocks.get? i = some b)
    (hb' : wfBlock b') (hsz : mem_block_size b' = mem_block_size b) :
    wfBlocks (blocks.set i b') := by
  obtain ⟨hall, hsum⟩ := hwf
  constructor
  · intro x hx
    rcases List.mem_or_eq_of_mem_set hx with hx | rfl
    · exact hall x hx
    · exact hb'
  · have := sum_map_size_set blocks i b b' hget
    omega

/-- Well-formedness is preserved by replacing two adjacent blocks with one
well-formed block of the summed size. -/
lemma wfBlocks_replace_two {blocks : List MemBlock} {i : Nat}
    {b1 b2 M : MemBlock} (hwf : wfBlocks blocks)
    (hg1 : blocks.get? i = some b1) (hg2 : blocks.get? (i + 1) = some b2)
    (hM : wfBlock M)
    (hMsz : mem_block_size M = mem_block_size b1 + mem_block_size b2) :
    wfBlocks (blocks.take i ++ M :: blocks.drop (i + 2)) := by
  obtain ⟨hall, hsum⟩ := hwf
  constructor
  · intro x hx
    rcases List.mem_append.1 hx with hx | hx
    · exact hall x ((List.take_sublist i blocks).mem hx)
    · rcases List.mem_cons.1 hx with rfl | hx
      · exact hM
      · exact hall x ((List.drop_sublist (i + 2) blocks).mem hx)
  · have hdec := decomp2_of_get? hg1 hg2
    conv at hsum => rw [hdec]
    simp only [List.map_append, List.sum_append, List.map_cons,
      List.sum_cons] at hsum ⊢
    omega

/-- Successful-path form of `mem_free_list_add`. -/
lemma mem_free_list_add_spec {h : MemHeap} {i : Nat} {b : MemBlock}
    (hget : h.blocks.get? i = some b)
    (halloc : mem_block_allocated b = true) :
    mem_free_list_add h i =
      some { blocks := h.blocks.set i (mem_block_clear_allocated b),
             free := addrOfIdx h.blocks i :: h.free } := by
  rw [List.get?_eq_getElem?] at hget
  simp [mem_free_list_add, hget, halloc]

/-- Successful-path form of `mem_free_list_remove`. -/
lemma mem_free_list_remove_spec {h : MemHeap} {i : Nat} {b : MemBlock}
    (hget : h.blocks.get? i = some b)
    (halloc : mem_block_allocated b = false) :
    mem_free_list_remove h i =
      some { blocks := h.blocks.set i (mem_block_set_allocated b),
             free := h.free.erase (addrOfIdx h.blocks i) } := by
  rw [List.get?_eq_getElem?] at hget
  simp [mem_free_list_remove, hget, halloc]

/-- `mem_block_merge` does nothing when either block is allocated. -/
lemma mem_block_merge_noop {h : MemHeap} {i : Nat} {b1 b2 : MemBlock}
    (hg1 : h.blocks.get? i = some b1) (hg2 : h.blocks.get? (i + 1) = some b2)
    (halloc : mem_block_allocated b1 = true ∨ mem_block_allocated b2 = true) :
    mem_block_merge h i = some (h, false) := by
  rw [List.get?_eq_getElem?] at hg1 hg2
  simp only [mem_block_merge, List.get?_eq_getElem?, hg1, hg2]
  have hor : (mem_block_allocated b1 || mem_block_allocated b2) = true := by
    rcases halloc with h' | h' <;> simp [h']
  rw [if_pos hor]

/-- Successful-path form of `mem_block_merge`: two adjacent free well-formed
blocks merge into a single free block of the summed size at the lower
address; the rest of the heap is untouched. -/
lemma mem_block_merge_merges {h : MemHeap} {i : Nat} {b1 b2 : MemBlock}
    (hg1 : h.blocks.get? i = some b1) (hg2 : h.blocks.get? (i + 1) = some b2)
    (ha1 : mem_block_allocated b1 = false)
    (ha2 : mem_block_allocated b2 = false)
    (hwf1 : wfBlock b1) (hwf2 : wfBlock b2)
    (hsum : mem_block_size b1 + mem_block_size b2 ≤ MEM_HEAP_SIZE) :
    ∃ fl, mem_block_merge h i =
      some ({ blocks := h.blocks.take i
                ++ mem_block_clear_allocated
                     (mem_block_init (mem_block_size b1 + mem_block_size b2))
                :: h.blocks.drop (i + 2),
              free := fl }, true) := by
  have hlt1 : i < h.blocks.length := lt_length_of_get? hg1
  obtain ⟨s1, h8a, hmina, -, hsza, -, -⟩ := wfBlock_elim hwf1
  obtain ⟨s2, h8b, hminb, -, hszb, -, -⟩ := wfBlock_elim hwf2
  have hS8 : (mem_block_size b1 + mem_block_size b2) % MEM_ALIGN = 0 := by
    rw [hsza, hszb]
    simp only [MEM_ALIGN] at h8a h8b ⊢
    omega
  have hSmin : MEM_BLOCK_MIN_SIZE ≤ mem_block_size b1 + mem_block_size b2 := by
    rw [hsza]
    omega
  obtain ⟨hwfM, hszM, haM⟩ := wfBlock_init hS8 hSmin hsum
  have hrem1 := mem_free_list_remove_spec hg1 ha1
  have hg2' : (h.blocks.set i (mem_block_set_allocated b1)).get? (i + 1)
      = some b2 := by
    rw [get?_set_ne _ _ (by omega)]
    exact hg2
  have hrem2 := mem_free_list_remove_spec
    (h := { blocks := h.blocks.set i (mem_block_set_allocated b1),
            free := h.free.erase (addrOfIdx h.blocks i) }) hg2' ha2
  have htl : (h.blocks.take i).length = i := by
    rw [List.length_take]
    omega
  have htake : (((h.blocks.set i (mem_block_set_allocated b1)).set (i + 1)
      (mem_block_set_allocated b2)).take i) = h.blocks.take i := by
    rw [take_set_of_le _ i (i + 1) _ (by omega), take_set_of_le _ i i _ le_rfl]
  have hdrop : (((h.blocks.set i (mem_block_set_allocated b1)).set (i + 1)
      (mem_block_set_allocated b2)).drop (i + 2)) = h.blocks.drop (i + 2) := by
    rw [List.drop_set, if_pos (by omega), List.drop_set, if_pos (by omega)]
  have hget3 : (h.blocks.take i
      ++ mem_block_init (mem_block_size b1 + mem_block_size b2)
      :: h.blocks.drop (i + 2)).get? i
      = some (mem_block_init (mem_block_size b1 + mem_block_size b2)) := by
    rw [List.get?_eq_getElem?]
    have base := getElem?_append_length (h.blocks.take i) (h.blocks.drop (i + 2))
      (mem_block_init (mem_block_size b1 + mem_block_size b2))
    rw [htl] at base
    exact base
  have hadd := mem_free_list_add_spec
    (h := { blocks := h.blocks.take i
              ++ mem_block_init (mem_block_size b1 + mem_block_size b2)
              :: h.blocks.drop (i + 2),
            free := ((h.free.erase (addrOfIdx h.blocks i)).erase
              (addrOfIdx (h.blocks.set i (mem_block_set_allocated b1))
                (i + 1))) }) hget3 haM
  have hsetfin : (h.blocks.take i
      ++ mem_block_init (mem_block_size b1 + mem_block_size b2)
      :: h.blocks.drop (i + 2)).set i
        (mem_block_clear_allocated
          (mem_block_init (mem_block_size b1 + mem_block_size b2)))
      = h.blocks.take i
        ++ mem_block_clear_allocated
             (mem_block_init (mem_block_size b1 + mem_block_size b2))
        :: h.blocks.drop (i + 2) := by
    have base := set_append_length (h.blocks.take i) (h.blocks.drop (i + 2))
      (mem_block_init (mem_block_size b1 + mem_block_size b2))
      (mem_block_clear_allocated
        (mem_block_init (mem_block_size b1 + mem_block_size b2)))
    rw [htl] at base
    exact base
  rw [List.get?_eq_getElem?] at hg1 hg2
  simp only [mem_block_merge, List.get?_eq_getElem?, hg1, hg2]
  rw [if_neg (by simp [ha1, ha2])]
  simp only [hrem1, hrem2, htake, hdrop, hadd, hsetfin]
  exact ⟨_, rfl⟩

/-- Setting index `i` rewrites the list as an explicit splice around it. -/
lemma set_eq_take_cons_drop {l : List MemBlock} {i : Nat} {b : MemBlock}
    (hget : l.get? i = some b) (b' : MemBlock) :
    l.set i b' = l.take i ++ b' :: l.drop (i + 1) := by
  have htl : (l.take i).length = i := by
    rw [List.length_take]
    have := lt_length_of_get? hget
    omega
  conv_lhs => rw [decomp_of_get? hget]
  have base := set_append_length (l.take i) (l.drop (i + 1)) b b'
  rw [htl] at base
  exact base

/-- The sizes of two adjacent blocks are bounded by the heap size. -/
lemma size_pair_le_heap {blocks : List MemBlock} {j : Nat} {x y : MemBlock}
    (hsum : (blocks.map mem_block_size).sum = MEM_HEAP_SIZE)
    (hgx : blocks.get? j = some x) (hgy : blocks.get? (j + 1) = some y) :
    mem_block_size x + mem_block_size y ≤ MEM_HEAP_SIZE := by
  have hdec := decomp2_of_get? hgx hgy
  conv at hsum => rw [hdec]
  simp only [List.map_append, List.sum_append, List.map_cons,
    List.sum_cons] at hsum
  omega

/-- Adjacent blocks of a heap with no adjacent free blocks are not both
free. -/
lemma noAdjacentFree_pair {l : List MemBlock} (hadj : noAdjacentFree l)
    {j : Nat} {x y : MemBlock}
    (hx : l.get? j = some x) (hy : l.get? (j + 1) = some y) :
    mem_block_allocated x = true ∨ mem_block_allocated y = true := by
  have hj : j + 1 < l.length := lt_length_of_get? hy
  have hx' : l[j] = x := by
    rw [List.get?_eq_getElem?, List.getElem?_eq_getElem (by omega),
      Option.some.injEq] at hx
    exact hx
  have hy' : l[j + 1] = y := by
    rw [List.get?_eq_getElem?, List.getElem?_eq_getElem hj,
      Option.some.injEq] at hy
    exact hy
  rw [noAdjacentFree, List.chain'_iff_get] at hadj
  have := hadj j (by omega)
  simpa [List.get_eq_getElem, hx', hy'] using this

lemma getLast?_take_eq {l : List MemBlock} {j : Nat} (hj1 : 1 ≤ j)
    (hjl : j ≤ l.length) : (l.take j).getLast? = l[j - 1]? := by
  rw [List.getLast?_eq_getElem?, List.length_take]
  have hmin : min j l.length = j := by omega
  rw [hmin, List.getElem?_take, if_pos (by omega)]

/-- Splicing a free block between a prefix and a suffix of the heap keeps
the no-adjacent-free invariant when the prefix ends and the suffix starts
with allocated blocks. -/
lemma noAdjacentFree_glue (A Bt : List MemBlock) (M : MemBlock)
    (hA : noAdjacentFree A) (hB : noAdjacentFree Bt)
    (hlast : ∀ x, A.getLast? = some x → mem_block_allocated x = true)
    (hhead : ∀ y, Bt.head? = some y → mem_block_allocated y = true) :
    noAdjacentFree (A ++ M :: Bt) := by
  rw [noAdjacentFree, List.chain'_append]
  refine ⟨hA, ?_, ?_⟩
  · rw [List.chain'_cons']
    exact ⟨fun y hy => Or.inr (hhead y (Option.mem_def.1 hy)), hB⟩
  · intro x hx y hy
    simp only [List.head?_cons, Option.mem_def, Option.some.injEq] at hy
    subst hy
    exact Or.inl (hlast x (Option.mem_def.1 hx))

lemma noAdjacentFree_take {l : List MemBlock} (hadj : noAdjacentFree l)
    (n : Nat) : noAdjacentFree (l.take n) :=
  List.Chain'.take hadj n

lemma noAdjacentFree_drop {l : List MemBlock} (hadj : noAdjacentFree l)
    (n : Nat) : noAdjacentFree (l.drop n) :=
  List.Chain'.drop hadj n

/-- The merged block built by `mem_block_merge` is well formed, free, and
has the summed size. -/
lemma merged_block_ok {x y : MemBlock} (hx : wfBlock x) (hy : wfBlock y)
    (hsum : mem_block_size x + mem_block_size y ≤ MEM_HEAP_SIZE) :
    wfBlock (mem_block_clear_allocated
        (mem_block_init (mem_block_size x + mem_block_size y)))
    ∧ mem_block_size (mem_block_clear_allocated
        (mem_block_init (mem_block_size x + mem_block_size y)))
      = mem_block_size x + mem_block_size y
    ∧ mem_block_allocated (mem_block_clear_allocated
        (mem_block_init (mem_block_size x + mem_block_size y))) = false := by
  obtain ⟨s1, h8a, hmina, -, hsza, -, -⟩ := wfBlock_elim hx
  obtain ⟨s2, h8b, -, -, hszb, -, -⟩ := wfBlock_elim hy
  have hS8 : (mem_block_size x + mem_block_size y) % MEM_ALIGN = 0 := by
    rw [hsza, hszb]
    simp only [MEM_ALIGN] at h8a h8b ⊢
    omega
  have hSmin : MEM_BLOCK_MIN_SIZE ≤ mem_block_size x + mem_block_size y := by
    rw [hsza]
    omega
  obtain ⟨hwfI, hszI, -⟩ := wfBlock_init hS8 hSmin hsum
  obtain ⟨hwfC, hszC, haC⟩ := wfBlock_clear hwfI
  exact ⟨hwfC, by rw [hszC, hszI], haC⟩

/-- Correctness of the successor-merge stage of `mem_free`: splicing a free
well-formed block `F2` between a prefix `l.take j` (ending, if non-empty,
with an allocated block) and the suffix `l.drop k` of a heap `l` with no
adjacent free blocks, the stage yields a well-formed heap with no adjacent
free blocks. -/
lemma mem_free_merge_next_spec {l : List MemBlock} {j k : Nat} {F2 : MemBlock}
    {free2 : List Nat} {h' : MemHeap}
    (hadj : noAdjacentFree l)
    (hjk : j ≤ k) (hkl : k ≤ l.length)
    (hwf2 : wfBlocks (l.take j ++ F2 :: l.drop k))
    (hF2wf : wfBlock F2) (hF2free : mem_block_allocated F2 = false)
    (hleft : ∀ x, (l.take j).getLast? = some x → mem_block_allocated x = true)
    (heq : mem_free_merge_next
        { blocks := l.take j ++ F2 :: l.drop k, free := free2 } j = some h') :
    wfBlocks h'.blocks ∧ noAdjacentFree h'.blocks := by
  have htlj : (l.take j).length = j := by
    rw [List.length_take]
    omega
  have hlen : (l.take j ++ F2 :: l.drop k).length = j + 1 + (l.length - k) := by
    simp [htlj]
    omega
  rw [mem_free_merge_next] at heq
  by_cases hend : j + 1 < (l.take j ++ F2 :: l.drop k).length
  · rw [if_pos (show j + 1 < ({ blocks := l.take j ++ F2 :: l.drop k, free := free2 } : MemHeap).blocks.length from hend)] at heq
    have hklt : k < l.length := by
      rw [hlen] at hend
      omega
    have hgN : l.get? k = some l[k] := by
      rw [List.get?_eq_getElem?, List.getElem?_eq_getElem hklt]
    have hg2F : ({ blocks := l.take j ++ F2 :: l.drop k, free := free2 } : MemHeap).blocks.get? j = some F2 := by
      rw [List.get?_eq_getElem?]
      have base := getElem?_append_length (l.take j) (l.drop k) F2
      rw [htlj] at base
      exact base
    have hg2N : ({ blocks := l.take j ++ F2 :: l.drop k, free := free2 } : MemHeap).blocks.get? (j + 1) = some l[k] := by
      rw [List.get?_eq_getElem?]
      show (l.take j ++ F2 :: l.drop k)[j + 1]? = some l[k]
      rw [List.getElem?_append, if_neg (by omega), htlj]
      have hj1 : j + 1 - j = 1 := by omega
      rw [hj1]
      show (F2 :: l.drop k)[0 + 1]? = some l[k]
      rw [List.getElem?_cons_succ, List.getElem?_drop]
      show l[k]? = some l[k]
      rw [List.getElem?_eq_getElem hklt]
    by_cases haN : mem_block_allocated l[k] = true
    · have hno := mem_block_merge_noop hg2F hg2N (Or.inr haN)
      rw [hno] at heq
      simp only [Option.bind_eq_bind, Option.some_bind,
        Option.some.injEq] at heq
      subst heq
      refine ⟨hwf2, noAdjacentFree_glue _ _ _ (noAdjacentFree_take hadj j)
        (noAdjacentFree_drop hadj k) hleft ?_⟩
      intro y hy
      rw [List.head?_drop, List.getElem?_eq_getElem hklt,
        Option.some.injEq] at hy
      rw [← hy]
      exact haN
    · have haN' : mem_block_allocated l[k] = false := by
        simpa using haN
      have hNmem : l[k] ∈ l.take j ++ F2 :: l.drop k := by
        refine List.mem_append.2 (Or.inr (List.mem_cons.2 (Or.inr ?_)))
        have hh : (l.drop k).head? = some l[k] := by
          rw [List.head?_drop, List.getElem?_eq_getElem hklt]
        exact List.mem_of_mem_head? hh
      have hNwf : wfBlock l[k] := hwf2.1 _ hNmem
      have hsumb : mem_block_size F2 + mem_block_size l[k] ≤ MEM_HEAP_SIZE :=
        size_pair_le_heap hwf2.2 hg2F hg2N
      obtain ⟨fl3, hmg⟩ :=
        mem_block_merge_merges hg2F hg2N hF2free haN' hF2wf hNwf hsumb
      rw [hmg] at heq
      simp only [Option.bind_eq_bind, Option.some_bind,
        Option.some.injEq] at heq
      subst heq
      have hts : (l.take j ++ F2 :: l.drop k).take j = l.take j :=
        List.take_left' htlj
      have hds : (l.take j ++ F2 :: l.drop k).drop (j + 2)
          = l.drop (k + 1) := by
        rw [List.append_cons]
        have hlen2 : (l.take j ++ [F2]).length = j + 1 := by simp [htlj]
        have hda := @List.drop_append _ (l.take j ++ [F2]) (l.drop k) 1
        rw [hlen2] at hda
        show (l.take j ++ [F2] ++ l.drop k).drop (j + 1 + 1) = l.drop (k + 1)
        rw [hda, List.drop_drop]
      obtain ⟨hwfM, hszM, haM⟩ := merged_block_ok hF2wf hNwf hsumb
      have hwf3 := wfBlocks_replace_two hwf2 hg2F hg2N hwfM hszM
      rw [hts, hds] at hwf3
      constructor
      · show wfBlocks ((l.take j ++ F2 :: l.drop k).take j
          ++ mem_block_clear_allocated
               (mem_block_init (mem_block_size F2 + mem_block_size l[k]))
          :: (l.take j ++ F2 :: l.drop k).drop (j + 2))
        rw [hts, hds]
        exact hwf3
      show noAdjacentFree ((l.take j ++ F2 :: l.drop k).take j
        ++ mem_block_clear_allocated
             (mem_block_init (mem_block_size F2 + mem_block_size l[k]))
        :: (l.take j ++ F2 :: l.drop k).drop (j + 2))
      rw [hts, hds]
      refine noAdjacentFree_glue _ _ _ (noAdjacentFree_take hadj j)
        (noAdjacentFree_drop hadj (k + 1)) hleft ?_
      intro y hy
      rw [List.head?_drop] at hy
      have hgy : l.get? (k + 1) = some y := by
        rw [List.get?_eq_getElem?]
        exact hy
      rcases noAdjacentFree_pair hadj hgN hgy with hN | hY
      · rw [haN'] at hN
        exact absurd hN (by simp)
      · exact hY
  · rw [if_neg (show ¬ (j + 1 < ({ blocks := l.take j ++ F2 :: l.drop k, free := free2 } : MemHeap).blocks.length) from hend)] at heq
    simp only [Option.some.injEq] at heq
    subst heq
    have hkeq : k = l.length := by
      rw [hlen] at hend
      omega
    have hD : l.drop k = [] := by
      rw [hkeq, List.drop_length]
    refine ⟨hwf2, ?_⟩
    show noAdjacentFree (l.take j ++ F2 :: l.drop k)
    rw [hD]
    refine noAdjacentFree_glue _ _ _ (noAdjacentFree_take hadj j)
      (by simp [noAdjacentFree]) hleft ?_
    intro y hy
    simp at hy

lemma mem_of_get? {α : Type} {l : List α} {i : Nat} {a : α}
    (h : l.get? i = some a) : a ∈ l := by
  have hlt : i < l.length := lt_length_of_get? h
  have : l[i] = a := by
    rw [List.get?_eq_getElem?, List.getElem?_eq_getElem hlt,
      Option.some.injEq] at h
    exact h
  rw [← this]
  exact l.getElem_mem hlt

/-- A successful `mem_free` preserves well-formedness and restores the
no-adjacent-free invariant. -/
lemma mem_free_preserves {h : MemHeap} {p : Nat} {h' : MemHeap}
    (hwf : wfBlocks h.blocks) (hadj : noAdjacentFree h.blocks)
    (heq : mem_free h (some p) = some h') :
    wfBlocks h'.blocks ∧ noAdjacentFree h'.blocks := by
  rw [mem_free] at heq
  cases hmod : (p % MEM_ALIGN != 0) with
  | true => simp [hmod] at heq
  | false =>
  simp only [hmod] at heq
  rw [if_neg (by simp)] at heq
  cases hidx : idxOfAddr h.blocks (p - mem_block_payload_offset) with
  | none => simp [hidx] at heq
  | some i =>
  simp only [hidx] at heq
  obtain ⟨hilt, -⟩ := idxOfAddr_spec hidx
  obtain ⟨B, hgB⟩ : ∃ b, h.blocks.get? i = some b :=
    ⟨_, by rw [List.get?_eq_getElem?, List.getElem?_eq_getElem hilt]⟩
  have hBwf : wfBlock B := hwf.1 B (mem_of_get? hgB)
  by_cases haB : mem_block_allocated B = true
  · have hadd := mem_free_list_add_spec hgB haB
    rw [hadd] at heq
    simp only [Option.bind_eq_bind, Option.some_bind] at heq
    obtain ⟨hclearwf, hclearsz, hclearfree⟩ := wfBlock_clear hBwf
    have hwf1 : wfBlocks (h.blocks.set i (mem_block_clear_allocated B)) :=
      wfBlocks_set hwf hgB hclearwf hclearsz
    have hshape1 : h.blocks.set i (mem_block_clear_allocated B)
        = h.blocks.take i ++ mem_block_clear_allocated B
            :: h.blocks.drop (i + 1) :=
      set_eq_take_cons_drop hgB _
    by_cases hi0 : i = 0
    · subst hi0
      rw [mem_free_merge_prev, if_pos rfl] at heq
      simp only [Option.bind_eq_bind, Option.some_bind] at heq
      rw [hshape1] at heq
      rw [hshape1] at hwf1
      refine mem_free_merge_next_spec hadj (by omega) (by omega) hwf1
        hclearwf hclearfree ?_ heq
      intro x hx
      simp at hx
    · have hi1 : 1 ≤ i := by omega
      rw [mem_free_merge_prev, if_neg hi0] at heq
      have hPlt : i - 1 < h.blocks.length := by omega
      obtain ⟨P, hgP⟩ : ∃ b, h.blocks.get? (i - 1) = some b :=
        ⟨_, by rw [List.get?_eq_getElem?, List.getElem?_eq_getElem hPlt]⟩
      have hPwf : wfBlock P := hwf.1 P (mem_of_get? hgP)
      have hgP1 : (h.blocks.set i (mem_block_clear_allocated B)).get? (i - 1)
          = some P := by
        rw [get?_set_ne _ _ (by omega)]
        exact hgP
      have hgB1 : (h.blocks.set i
          (mem_block_clear_allocated B)).get? ((i - 1) + 1)
          = some (mem_block_clear_allocated B) := by
        have hsucc : i - 1 + 1 = i := by omega
        rw [hsucc]
        exact get?_set_self _ _ hilt
      by_cases haP : mem_block_allocated P = true
      · have hno := mem_block_merge_noop
          (h := { blocks := h.blocks.set i (mem_block_clear_allocated B),
                  free := addrOfIdx h.blocks i :: h.free })
          hgP1 hgB1 (Or.inl haP)
        rw [hno] at heq
        simp only [Option.bind_eq_bind, Option.some_bind, Bool.false_eq_true,
          if_false] at heq
        rw [hshape1] at heq
        rw [hshape1] at hwf1
        refine mem_free_merge_next_spec hadj (by omega) (by omega) hwf1
          hclearwf hclearfree ?_ heq
        intro x hx
        rw [getLast?_take_eq hi1 (by omega)] at hx
        have hgx : h.blocks.get? (i - 1) = some x := by
          rw [List.get?_eq_getElem?]
          exact hx
        rw [hgx, Option.some.injEq] at hgP
        rw [hgP]
        exact haP
      · have haP' : mem_block_allocated P = false := by simpa using haP
        have hsumP : mem_block_size P
            + mem_block_size (mem_block_clear_allocated B)
            ≤ MEM_HEAP_SIZE :=
          size_pair_le_heap hwf1.2 hgP1 hgB1
        obtain ⟨fl2, hmg⟩ := mem_block_merge_merges
          (h := { blocks := h.blocks.set i (mem_block_clear_allocated B),
                  free := addrOfIdx h.blocks i :: h.free })
          hgP1 hgB1 haP' hclearfree hPwf hclearwf hsumP
        rw [hmg] at heq
        simp only [Option.bind_eq_bind, Option.some_bind, if_true] at heq
        have htk : (h.blocks.set i (mem_block_clear_allocated B)).take (i - 1)
            = h.blocks.take (i - 1) :=
          take_set_of_le _ _ _ _ (by omega)
        have hdk : (h.blocks.set i
            (mem_block_clear_allocated B)).drop (i - 1 + 2)
            = h.blocks.drop (i + 1) := by
          have h12 : i - 1 + 2 = i + 1 := by omega
          rw [h12, List.drop_set, if_pos (by omega)]
        rw [htk, hdk] at heq
        obtain ⟨hwfM, hszM, haM⟩ := merged_block_ok hPwf hclearwf hsumP
        have hwf2' := wfBlocks_replace_two hwf1 hgP1 hgB1 hwfM hszM
        rw [htk, hdk] at hwf2'
        refine mem_free_merge_next_spec hadj (by omega) (by omega) hwf2'
          hwfM haM ?_ heq
        intro x hx
        by_cases hi2 : i - 1 = 0
        · rw [hi2] at hx
          simp at hx
        · rw [getLast?_take_eq (by omega) (by omega)] at hx
          have hgx : h.blocks.get? (i - 1 - 1) = some x := by
            rw [List.get?_eq_getElem?]
            exact hx
          have hstep : (i - 1 - 1) + 1 = i - 1 := by omega
          have hgP' : h.blocks.get? ((i - 1 - 1) + 1) = some P := by
            rw [hstep]
            exact hgP
          rcases noAdjacentFree_pair hadj hgx hgP' with hx1 | hx2
          · exact hx1
          · rw [haP'] at hx2
            exact absurd hx2 (by simp)
  · have haB' : mem_block_allocated B = false := by simpa using haB
    have hfail : mem_free_list_add h i = none := by
      rw [List.get?_eq_getElem?] at hgB
      simp [mem_free_list_add, hgB, haB']
    rw [hfail] at heq
    simp at heq

/-! Arithmetic of `P2ROUND` and `mem_convert_to_block_size`. -/

lemma testBit_mask8 (i : Nat) :
    (2 ^ 32 - 8).testBit i = (decide (3 ≤ i) && decide (i < 32)) := by
  match i with
  | 0 => decide
  | 1 => decide
  | 2 => decide
  | n + 3 =>
    have hstep : (2 ^ 32 - 8 : Nat).testBit (n + 3) = (2 ^ 29 - 1).testBit n := by
      rw [show n + 3 = (n + 2) + 1 from rfl, Nat.testBit_succ,
        show (2 ^ 32 - 8 : Nat) / 2 = 2 ^ 31 - 4 by norm_num,
        show n + 2 = (n + 1) + 1 from rfl, Nat.testBit_succ,
        show (2 ^ 31 - 4 : Nat) / 2 = 2 ^ 30 - 2 by norm_num,
        Nat.testBit_succ,
        show (2 ^ 30 - 2 : Nat) / 2 = 2 ^ 29 - 1 by norm_num]
    rw [hstep, Nat.testBit_two_pow_sub_one]
    by_cases h : n < 29
    · have h32 : n + 3 < 32 := by omega
      simp [h, h32]
    · have h32 : ¬ (n + 3 < 32) := by omega
      simp [h, h32]

lemma land_mask8 {y : Nat} (hy : y < 2 ^ 32) :
    y &&& (2 ^ 32 - 8) = 8 * (y / 8) := by
  apply Nat.eq_of_testBit_eq
  intro i
  rw [Nat.testBit_land, testBit_mask8]
  have h8 : (8 : Nat) * (y / 8) = (y / 8) <<< 3 := by
    rw [Nat.shiftLeft_eq]
    ring
  rw [h8, Nat.testBit_shiftLeft]
  have hdiv : y / 8 = y >>> 3 := by
    rw [Nat.shiftRight_eq_div_pow]
  by_cases h3 : 3 ≤ i
  · by_cases h32 : i < 32
    · rw [hdiv, Nat.testBit_shiftRight]
      have hi : 3 + (i - 3) = i := by omega
      rw [hi]
      simp [h3, h32]
    · have hbit : y.testBit i = false := testBit_ge32_false hy (by omega)
      have hbit2 : (y / 8).testBit (i - 3) = false := by
        apply Nat.testBit_lt_two_pow
        have hy8 : y / 8 < 2 ^ 29 := by omega
        calc y / 8 < 2 ^ 29 := hy8
          _ ≤ 2 ^ (i - 3) := Nat.pow_le_pow_right (by norm_num) (by omega)
      simp [h3, h32, hbit, hbit2]
  · simp [h3]

lemma P2ROUND_8_eq (x : Nat) :
    P2ROUND x 8 = (8 * ((x % 2 ^ 32 + 7) / 8)) % 2 ^ 32 := by
  rw [P2ROUND, neg32, neg32, neg32]
  have h8 : (2 ^ 32 - 8 % 2 ^ 32) % 2 ^ 32 = 2 ^ 32 - 8 := by norm_num
  rw [h8]
  have hneg : (2 ^ 32 - x % 2 ^ 32) % 2 ^ 32 < 2 ^ 32 :=
    Nat.mod_lt _ (by norm_num)
  rw [land_mask8 hneg]
  omega

/-- The converted block size is always 8-aligned and at least the minimum
block size. -/
lemma mem_convert_spec (n : Nat) :
    mem_convert_to_block_size n % MEM_ALIGN = 0
    ∧ MEM_BLOCK_MIN_SIZE ≤ mem_convert_to_block_size n := by
  simp only [mem_convert_to_block_size, MEM_ALIGN, mem_btag_bytes,
    MEM_BLOCK_MIN_SIZE_eq, P2ROUND_8_eq]
  constructor
  · split_ifs with hc <;> omega
  · split_ifs with hc <;> omega

/-- Specification of the first-fit search: a successful find yields the
index and address of a block at least as large as the request. -/
lemma mem_free_list_find_spec {blocks : List MemBlock} {size a i : Nat} :
    ∀ {fl : List Nat},
      mem_free_list_find blocks size fl = some (some (a, i)) →
      ∃ b, idxOfAddr blocks a = some i ∧ blocks.get? i = some b
        ∧ size ≤ mem_block_size b := by
  intro fl
  induction fl with
  | nil => intro hfind; simp [mem_free_list_find] at hfind
  | cons a' rest ih =>
    intro hfind
    rw [mem_free_list_find] at hfind
    cases hidx : idxOfAddr blocks a' with
    | none =>
      simp only [hidx] at hfind
      exact absurd hfind (by simp)
    | some i' =>
      simp only [hidx] at hfind
      cases hget : blocks.get? i' with
      | none =>
        simp only [hget] at hfind
        exact absurd hfind (by simp)
      | some b =>
        simp only [hget] at hfind
        by_cases hle : size ≤ mem_block_size b
        · rw [if_pos hle] at hfind
          simp only [Option.some.injEq, Prod.mk.injEq] at hfind
          obtain ⟨rfl, rfl⟩ := hfind
          exact ⟨b, hidx, hget, hle⟩
        · rw [if_neg hle] at hfind
          exact ih hfind

/-- Block addresses are 8-aligned: they are sums of 8-aligned block
sizes. -/
lemma addrOfIdx_mod8 {blocks : List MemBlock}
    (hwf : ∀ b ∈ blocks, wfBlock b) (i : Nat) :
    addrOfIdx blocks i % MEM_ALIGN = 0 := by
  have hdvd : (8 : Nat) ∣ addrOfIdx blocks i := by
    apply List.dvd_sum
    intro x hx
    obtain ⟨b, hb, rfl⟩ := List.mem_map.1 hx
    have hbw : wfBlock b := hwf b ((List.take_sublist i blocks).mem hb)
    obtain ⟨s, h8, -, -, hsz, -, -⟩ := wfBlock_elim hbw
    rw [hsz]
    simp only [MEM_ALIGN] at h8
    omega
  simp only [MEM_ALIGN]
  omega

/-- Splitting a well-formed block into two canonical pieces preserves heap
well-formedness. -/
lemma wfBlocks_split {blocks : List MemBlock} {i : Nat} {b : MemBlock}
    (hwf : wfBlocks blocks) (hg : blocks.get? i = some b)
    (k : Nat) (hk8 : k % MEM_ALIGN = 0) (hkmin : MEM_BLOCK_MIN_SIZE ≤ k)
    (hkle : k + MEM_BLOCK_MIN_SIZE ≤ mem_block_size b) :
    wfBlocks (blocks.take i
      ++ mem_block_init k :: mem_block_init (mem_block_size b - k)
      :: blocks.drop (i + 1)) := by
  obtain ⟨hall, hsum⟩ := hwf
  have hbw : wfBlock b := hall b (mem_of_get? hg)
  obtain ⟨s, h8, hmin, hmax, hsz, -, -⟩ := wfBlock_elim hbw
  have hk1 := wfBlock_init hk8 hkmin (by omega)
  have hrest8 : (mem_block_size b - k) % MEM_ALIGN = 0 := by
    rw [hsz]
    simp only [MEM_ALIGN] at h8 hk8 ⊢
    omega
  have hrestmin : MEM_BLOCK_MIN_SIZE ≤ mem_block_size b - k := by omega
  have hrestmax : mem_block_size b - k ≤ MEM_HEAP_SIZE := by omega
  have hk2 := wfBlock_init hrest8 hrestmin hrestmax
  constructor
  · intro x hx
    rcases List.mem_append.1 hx with hx | hx
    · exact hall x ((List.take_sublist i blocks).mem hx)
    · rcases List.mem_cons.1 hx with rfl | hx
      · exact hk1.1
      · rcases List.mem_cons.1 hx with rfl | hx
        · exact hk2.1
        · exact hall x ((List.drop_sublist (i + 1) blocks).mem hx)
  · have hdec := decomp_of_get? hg
    conv at hsum => rw [hdec]
    simp only [List.map_append, List.sum_append, List.map_cons,
      List.sum_cons] at hsum ⊢
    rw [hk1.2.1, hk2.2.1]
    omega

/-- A successful `mem_alloc` preserves heap well-formedness. -/
lemma mem_alloc_preserves {h : MemHeap} {n : Nat} {h' : MemHeap}
    {r : Option Nat} (hwf : wfBlocks h.blocks)
    (heq : mem_alloc h n = some (h', r)) : wfBlocks h'.blocks := by
  rw [mem_alloc] at heq
  by_cases hn0 : n = 0
  · rw [if_pos hn0] at heq
    simp only [Option.some.injEq, Prod.mk.injEq] at heq
    rw [← heq.1]
    exact hwf
  rw [if_neg hn0] at heq
  simp only [] at heq
  cases hfind : mem_free_list_find h.blocks (mem_convert_to_block_size n)
      h.free with
  | none => rw [hfind] at heq; exact absurd heq (by simp)
  | some found =>
  cases found with
  | none =>
    simp only [hfind, Option.some.injEq, Prod.mk.injEq] at heq
    rw [← heq.1]
    exact hwf
  | some ai =>
  obtain ⟨a, i⟩ := ai
  simp only [hfind] at heq
  obtain ⟨b, -, hgb, hble⟩ := mem_free_list_find_spec hfind
  by_cases hab : mem_block_allocated b = true
  · have hfail : mem_free_list_remove h i = none := by
      rw [List.get?_eq_getElem?] at hgb
      simp [mem_free_list_remove, hgb, hab]
    rw [hfail] at heq
    exact absurd heq (by simp)
  have hab' : mem_block_allocated b = false := by simpa using hab
  have hrem := mem_free_list_remove_spec hgb hab'
  rw [hrem] at heq
  simp only [Option.bind_eq_bind, Option.some_bind] at heq
  obtain ⟨hsetwf, hsetsz, hsetall⟩ := wfBlock_set_alloc (hwf.1 b (mem_of_get? hgb))
  have hwf1 : wfBlocks (h.blocks.set i (mem_block_set_allocated b)) :=
    wfBlocks_set hwf hgb hsetwf hsetsz
  have hilt : i < h.blocks.length := lt_length_of_get? hgb
  have hg1 : (h.blocks.set i (mem_block_set_allocated b)).get? i
      = some (mem_block_set_allocated b) := get?_set_self _ _ hilt
  obtain ⟨hc8, hcmin⟩ := mem_convert_spec n
  rw [mem_block_split] at heq
  simp only [hg1] at heq
  rw [if_neg (by rw [hsetall]; simp)] at heq
  rw [if_neg (by simp [hc8])] at heq
  by_cases hsplit : mem_block_size (mem_block_set_allocated b)
      < mem_convert_to_block_size n + MEM_BLOCK_MIN_SIZE
  · rw [if_pos hsplit] at heq
    simp only [Option.bind_eq_bind, Option.some_bind] at heq
    rw [if_neg (by simp)] at heq
    simp only [Option.bind_eq_bind, Option.some_bind, Option.some.injEq,
      Prod.mk.injEq] at heq
    rw [← heq.1]
    exact hwf1
  · rw [if_neg hsplit] at heq
    simp only [Option.bind_eq_bind, Option.some_bind] at heq
    rw [if_pos trivial] at heq
    -- the split produced two blocks; the trailing one goes on the free list
    have hsplitwf := wfBlocks_split hwf1 hg1
      (mem_convert_to_block_size n) hc8 hcmin (by omega)
    have htl1 : ((h.blocks.set i (mem_block_set_allocated b)).take i
        ++ [mem_block_init (mem_convert_to_block_size n)]).length = i + 1 := by
      simp [List.length_take, List.length_set]
      omega
    have hget2 : ((h.blocks.set i (mem_block_set_allocated b)).take i
        ++ mem_block_init (mem_convert_to_block_size n)
        :: mem_block_init (mem_block_size (mem_block_set_allocated b)
             - mem_convert_to_block_size n)
        :: (h.blocks.set i (mem_block_set_allocated b)).drop (i + 1)).get?
          (i + 1)
        = some (mem_block_init (mem_block_size (mem_block_set_allocated b)
             - mem_convert_to_block_size n)) := by
      rw [List.get?_eq_getElem?, List.append_cons]
      have base := getElem?_append_length
        ((h.blocks.set i (mem_block_set_allocated b)).take i
          ++ [mem_block_init (mem_convert_to_block_size n)])
        ((h.blocks.set i (mem_block_set_allocated b)).drop (i + 1))
        (mem_block_init (mem_block_size (mem_block_set_allocated b)
          - mem_convert_to_block_size n))
      rw [htl1] at base
      exact base
    have hrest8 : (mem_block_size (mem_block_set_allocated b)
        - mem_convert_to_block_size n) % MEM_ALIGN = 0 := by
      obtain ⟨s, h8, -, -, hsz, -, -⟩ := wfBlock_elim hsetwf
      rw [hsz]
      simp only [MEM_ALIGN] at h8 hc8 ⊢
      omega
    have hrestwf := wfBlock_init hrest8 (by omega)
      (by
        obtain ⟨s, -, -, hmax, hsz, -, -⟩ := wfBlock_elim hsetwf
        rw [hsz] at hsplit ⊢
        omega)
    have hadd2 := mem_free_list_add_spec
      (h := { blocks := (h.blocks.set i (mem_block_set_allocated b)).take i
                ++ mem_block_init (mem_convert_to_block_size n)
                :: mem_block_init (mem_block_size (mem_block_set_allocated b)
                     - mem_convert_to_block_size n)
                :: (h.blocks.set i (mem_block_set_allocated b)).drop (i + 1),
              free := h.free.erase (addrOfIdx h.blocks i) })
      hget2 hrestwf.2.2
    rw [hadd2] at heq
    simp only [Option.bind_eq_bind, Option.some_bind, Option.some.injEq,
      Prod.mk.injEq] at heq
    rw [← heq.1]
    obtain ⟨hclwf, hclsz, -⟩ := wfBlock_clear hrestwf.1
    exact wfBlocks_set hsplitwf hget2 hclwf hclsz

/-- Extraction of the returned payload pointer of a successful allocation:
it is the found block's address plus the payload offset. -/
lemma mem_alloc_payload {h : MemHeap} {n : Nat} {h' : MemHeap} {p : Nat}
    (heq : mem_alloc h n = some (h', some p)) :
    ∃ a i, mem_free_list_find h.blocks (mem_convert_to_block_size n) h.free
        = some (some (a, i))
      ∧ p = a + mem_block_payload_offset := by
  rw [mem_alloc] at heq
  by_cases hn0 : n = 0
  · rw [if_pos hn0] at heq
    simp at heq
  rw [if_neg hn0] at heq
  simp only [] at heq
  cases hfind : mem_free_list_find h.blocks (mem_convert_to_block_size n)
      h.free with
  | none => rw [hfind] at heq; exact absurd heq (by simp)
  | some found =>
  cases found with
  | none =>
    simp only [hfind] at heq
    simp at heq
  | some ai =>
  obtain ⟨a, i⟩ := ai
  simp only [hfind] at heq
  refine ⟨a, i, rfl, ?_⟩
  cases hrem : mem_free_list_remove h i with
  | none => rw [hrem] at heq; simp at heq
  | some h1 =>
  simp only [hrem, Option.bind_eq_bind, Option.some_bind] at heq
  cases hsp : mem_block_split h1.blocks i (mem_convert_to_block_size n) with
  | none => rw [hsp] at heq; simp at heq
  | some bs =>
  obtain ⟨blocks2, didSplit⟩ := bs
  simp only [hsp, Option.bind_eq_bind, Option.some_bind] at heq
  cases didSplit with
  | false =>
    simp only [Bool.false_eq_true, if_false, Option.some.injEq,
      Prod.mk.injEq] at heq
    exact heq.2.symm
  | true =>
    rw [if_pos rfl] at heq
    cases hadd : mem_free_list_add { blocks := blocks2, free := h1.free }
        (i + 1) with
    | none => rw [hadd] at heq; simp at heq
    | some h3 =>
      simp only [hadd, Option.bind_eq_bind, Option.some_bind,
        Option.some.injEq, Prod.mk.injEq] at heq
      exact heq.2.symm

/-! ## Theorems for claim C8 -/

/-- C8: on a well-formed heap with no adjacent free blocks, after every
`mem_alloc` and every `mem_free` every block's header and footer boundary
tags agree in size and allocation bit, and after `mem_free` returns no two
physically adjacent blocks are both free (the freed block was merged with a
free immediate predecessor and successor when present). -/
theorem mem_tags_coalesce_spec (h : MemHeap)
    (hwf : wfBlocks h.blocks) (hadj : noAdjacentFree h.blocks) :
    (∀ n h' r, mem_alloc h n = some (h', r) → ∀ b ∈ h'.blocks, btags_agree b)
    ∧ (∀ p h', mem_free h p = some h' →
        (∀ b ∈ h'.blocks, btags_agree b) ∧ noAdjacentFree h'.blocks) := by
  constructor
  · intro n h' r heq b hb
    exact wfBlock_btags_agree ((mem_alloc_preserves hwf heq).1 b hb)
  · intro p h' heq
    cases p with
    | none =>
      rw [mem_free] at heq
      simp only [Option.some.injEq] at heq
      subst heq
      exact ⟨fun b hb => wfBlock_btags_agree (hwf.1 b hb), hadj⟩
    | some q =>
      obtain ⟨hwf', hadj'⟩ := mem_free_preserves hwf hadj heq
      exact ⟨fun b hb => wfBlock_btags_agree (hwf'.1 b hb), hadj'⟩

/-- Witness heap for C8: one allocated 16-byte block at the heap base
followed by a free block covering the rest. -/
def wheapC8 : MemHeap where
  blocks := [⟨17, 17⟩, ⟨65520, 65520⟩]
  free := [16]

lemma wheapC8_wf : wfBlocks wheapC8.blocks := by
  constructor
  · intro b hb
    simp only [wheapC8, List.mem_cons, List.not_mem_nil, or_false] at hb
    rcases hb with rfl | rfl
    · exact ⟨rfl, 16, by decide, by decide, by decide, Or.inr rfl⟩
    · exact ⟨rfl, 65520, by decide, by decide, by decide, Or.inl rfl⟩
  · decide

/-- Witness for C8: freeing the 16-byte block of `wheapC8` (payload address
8) coalesces the heap back into a single block whose tags agree, with no
adjacent free blocks. -/
theorem mem_tags_coalesce_spec_witness :
    mem_free wheapC8 (some 8) = some { blocks := [⟨65536, 65536⟩], free := [0] }
    ∧ (∀ b ∈ ({ blocks := [⟨65536, 65536⟩], free := [0] } : MemHeap).blocks,
        btags_agree b)
    ∧ noAdjacentFree ({ blocks := [⟨65536, 65536⟩], free := [0] }
        : MemHeap).blocks := by
  have hrun : mem_free wheapC8 (some 8)
      = some { blocks := [⟨65536, 65536⟩], free := [0] } := by decide
  have happ := (mem_tags_coalesce_spec wheapC8 wheapC8_wf
    (List.Chain.cons (Or.inl (by decide)) List.Chain.nil)).2 (some 8) _ hrun
  exact ⟨hrun, happ.1, happ.2⟩

/-! ## Theorems for claim C9 -/

/-- C9: `mem_alloc 0` returns null; a successful allocation of `n > 0` bytes
returns a payload pointer aligned on `MEM_ALIGN = 8` bytes; and (absent
32-bit overflow) the internal block size is `n` rounded up to the alignment,
plus two 4-byte boundary tags, clamped below by the minimum block size
16. -/
theorem mem_alloc_alignment_spec (h : MemHeap) (n : Nat)
    (hwf : wfBlocks h.blocks) :
    mem_alloc h 0 = some (h, none)
    ∧ (∀ h' p, mem_alloc h n = some (h', some p) → p % MEM_ALIGN = 0)
    ∧ (n ≤ 2 ^ 32 - 16 →
        mem_convert_to_block_size n = max (8 * ((n + 7) / 8) + 4 * 2) 16) := by
  refine ⟨rfl, ?_, ?_⟩
  · intro h' p heq
    obtain ⟨a, i, hfind, rfl⟩ := mem_alloc_payload heq
    obtain ⟨b, hidx, -, -⟩ := mem_free_list_find_spec hfind
    obtain ⟨-, haddr⟩ := idxOfAddr_spec hidx
    have h8 := addrOfIdx_mod8 hwf.1 i
    rw [haddr] at h8
    simp only [mem_block_payload_offset, MEM_ALIGN] at h8 ⊢
    omega
  · intro hn
    simp only [mem_convert_to_block_size, MEM_ALIGN, mem_btag_bytes,
      MEM_BLOCK_MIN_SIZE_eq, P2ROUND_8_eq]
    have hnm : n % 2 ^ 32 = n := by omega
    rw [hnm]
    split_ifs with hc <;> omega

/-- Witness heap for C9 and C10: the heap as `mem_setup` leaves it, one free
block covering the whole region. -/
def wheapSetup : MemHeap where
  blocks := [⟨65536, 65536⟩]
  free := [0]

lemma wheapSetup_wf : wfBlocks wheapSetup.blocks := by
  constructor
  · intro b hb
    simp only [wheapSetup, List.mem_cons, List.not_mem_nil, or_false] at hb
    rcases hb with rfl
    exact ⟨rfl, 65536, by decide, by decide, by decide, Or.inl rfl⟩
  · decide

/-- Witness for C9: on the fresh heap, `mem_alloc 0` returns null, a 24-byte
request returns the aligned payload pointer 8 (heap base offset), and the
converted block size of 24 is 32. -/
theorem mem_alloc_alignment_spec_witness :
    mem_alloc wheapSetup 0 = some (wheapSetup, none)
    ∧ (8 : Nat) % MEM_ALIGN = 0
    ∧ mem_convert_to_block_size 24 = max (8 * ((24 + 7) / 8) + 4 * 2) 16 := by
  obtain ⟨h1, h2, h3⟩ := mem_alloc_alignment_spec wheapSetup 24 wheapSetup_wf
  refine ⟨h1, ?_, h3 (by decide)⟩
  exact h2 { blocks := [⟨33, 33⟩, ⟨65504, 65504⟩], free := [32] } 8 (by decide)

/-! ## Theorems for claim C10 -/

/-- C10: for `n = SIZE_MAX = 2^32 - 1` the internal size conversion
`P2ROUND(n, 8) + 2 * sizeof(struct mem_btag)` wraps modulo 2^32 down to 8
and is clamped to the 16-byte minimum, so `mem_alloc` on the fresh heap
returns a non-null pointer to a 16-byte block — far smaller than the
requested 2^32 - 1 bytes — instead of failing with null. -/
theorem mem_alloc_overflow_spec :
    mem_convert_to_block_size (2 ^ 32 - 1) = 16
    ∧ mem_setup = some wheapSetup
    ∧ mem_alloc wheapSetup (2 ^ 32 - 1)
        = some ({ blocks := [⟨17, 17⟩, ⟨65520, 65520⟩], free := [16] }, some 8)
    ∧ mem_block_size ⟨17, 17⟩ = 16
    ∧ 16 < 2 ^ 32 - 1 := by
  refine ⟨by decide, by decide, by decide, by decide, by decide⟩

end X1
